import Mathlib

/-!
# Verification of the hybrid-retrieval engine (chunker + multi-pass search)

Shallow embedding of the repository's two core modules:

* `scraper/processing/chunker.py` — `estimate_tokens`, `detect_game_modes`,
  `chunk_page`, `_split_into_sections`, `_split_large_text`;
* `backend/app/core/vector_search.py` — `_extract_section_keywords`,
  `_find_references`, `_get_title_index`, `VectorSearch.search`.

Modelling conventions:

* Python strings are modelled as `List Char` (`PyStr`).  `str.strip()` is
  `pyStrip` (drop whitespace at both ends), `str.lower()` maps
  `Char.toLower`, `a in b` on strings is list containment `<:+:`,
  `"\n".join` is `pyJoin '\n'`, `s.split("\n")` is `pySplit '\n'`.
* Similarity scores are modelled as exact rationals `ℚ`; the Python code
  manipulates them only by addition, `min(·, 1.0)`, comparison and sorting,
  all of which are exact here.
* Python `sorted(..., key=..., reverse=True)` (a stable sort) is modelled by
  `List.insertionSort` with the corresponding ≥-by-key relation.
* Python dicts with `int` keys (`seen_ids`) are modelled as association
  lists with insertion-order semantics (`dictInsert` replaces in place,
  appends fresh keys at the end), matching CPython dict iteration order.
* `async`/`await` I/O against the store and the embedding provider is
  modelled by `Except Unit`-valued oracle functions: a `.error` models a
  raised exception; a caught exception corresponds to matching on `.error`.
* The multiline regex `^##\s+(.+)$` of `_split_into_sections` is modelled
  line-by-line: a header line starts with `##`, then at least one
  whitespace character, then a non-empty remainder.  (The exotic case of
  `\s+` spanning a newline is not modelled; no claim depends on it.)
-/

/-- Python strings, modelled as lists of characters. -/
abbrev PyStr := List Char

/-- Whitespace test used by `str.strip()` (modelled by `Char.isWhitespace`). -/
def cWS (c : Char) : Bool := c.isWhitespace

/-- Python `s.strip()`: drop whitespace from both ends. -/
def pyStrip (s : PyStr) : PyStr :=
  ((s.dropWhile cWS).reverse.dropWhile cWS).reverse

/-- Python `s.lower()` (ASCII reading, via `Char.toLower`). -/
def pyLower (s : PyStr) : PyStr := s.map Char.toLower

/-- Python `sep.join(xs)` (single-character separator). -/
def pyJoin (sep : Char) : List PyStr → PyStr
  | [] => []
  | [x] => x
  | x :: y :: xs => x ++ sep :: pyJoin sep (y :: xs)

/-- Python `"\n".join(xs)`. -/
def joinNl (xs : List PyStr) : PyStr := pyJoin '\n' xs

/-- Python `" ".join(xs)`. -/
def joinSpace (xs : List PyStr) : PyStr := pyJoin ' ' xs

/-- Python `s.split(sep)` (single-character separator): splits at every
occurrence, keeping empty pieces; `"".split(sep) = [""]`. -/
def pySplit (sep : Char) : PyStr → List PyStr
  | [] => [[]]
  | c :: rest =>
    if c = sep then [] :: pySplit sep rest
    else
      match pySplit sep rest with
      | [] => [[c]]
      | p :: ps => (c :: p) :: ps

/-! ## chunker.py: constants and token estimation -/

/-- `CHARS_PER_TOKEN = 4`. -/
def CHARS_PER_TOKEN : Nat := 4

/-- `MIN_CHUNK_TOKENS = 50`. -/
def MIN_CHUNK_TOKENS : Nat := 50

/-- `MAX_CHUNK_TOKENS = 1000`. -/
def MAX_CHUNK_TOKENS : Nat := 1000

/-- `OVERLAP_TOKENS = 100`. -/
def OVERLAP_TOKENS : Nat := 100

/-- `MAIN_ONLY_KEYWORDS` from chunker.py. -/
def MAIN_ONLY_KEYWORDS : List PyStr :=
  ["grand exchange price".data, "buy limit".data, "trading".data]

/-- `estimate_tokens(text) = len(text) // CHARS_PER_TOKEN`. -/
def estimate_tokens (text : PyStr) : Nat := text.length / CHARS_PER_TOKEN

/-- The literal keyword list tested against the title in `detect_game_modes`. -/
def IRONMAN_TITLE_KEYWORDS : List PyStr :=
  ["ironman guide".data, "ironman".data, "iron man".data]

/-- `detect_game_modes(text, title, categories)` from chunker.py.
The `categories` argument is lowercased into a local (`cats_lower`) that the
source never reads afterwards; the embedding keeps the dead binding. -/
def detect_game_modes (text title : PyStr) (categories : List PyStr) : List PyStr :=
  let text_lower := pyLower text
  let title_lower := pyLower title
  let _cats_lower := categories.map pyLower
  let modes : List PyStr :=
    ["main".data, "ironman".data, "hardcore_ironman".data,
     "ultimate_ironman".data, "group_ironman".data]
  if IRONMAN_TITLE_KEYWORDS.any (fun kw => decide (kw <:+: title_lower)) then
    ["ironman".data, "hardcore_ironman".data, "ultimate_ironman".data,
     "group_ironman".data]
  else if MAIN_ONLY_KEYWORDS.any (fun kw => decide (kw <:+: text_lower)) then
    ["main".data, "group_ironman".data]
  else
    modes

/-! ## chunker.py: `_split_large_text` -/

/-- The inner `for p in reversed(current_chunk)` loop computing the overlap
paragraphs: walk the current chunk from its end, prepending paragraphs while
`estimate_tokens(overlap_text + p)` stays within the budget. -/
def overlapLoop (ovT : Nat) : List PyStr → List PyStr → List PyStr
  | [], acc => acc
  | p :: rest, acc =>
    if estimate_tokens (joinNl acc ++ p) > ovT then acc
    else overlapLoop ovT rest (p :: acc)

/-- `overlap_paras` for a finished sub-chunk: the maximal token-bounded
suffix of `current_chunk` (scanned in reverse, as in the source). -/
def computeOverlap (ovT : Nat) (current : List PyStr) : List PyStr :=
  overlapLoop ovT current.reverse []

/-- The paragraph loop of `_split_large_text`; state is
`(chunks, current_chunk, current_tokens)` exactly as in the source. -/
def splitLargeLoop (maxT ovT : Nat) :
    List PyStr → List PyStr → List PyStr → Nat → List PyStr
  | [], chunks, current, _ =>
    if current.isEmpty then chunks else chunks ++ [joinNl current]
  | para :: rest, chunks, current, curTok =>
    let paraTok := estimate_tokens para
    if curTok + paraTok > maxT ∧ ¬current.isEmpty then
      let ov := computeOverlap ovT current
      splitLargeLoop maxT ovT rest (chunks ++ [joinNl current])
        (ov ++ [para]) (estimate_tokens (joinNl ov) + paraTok)
    else
      splitLargeLoop maxT ovT rest chunks (current ++ [para]) (curTok + paraTok)

/-- `_split_large_text(text, max_tokens, overlap_tokens)` from chunker.py. -/
def split_large_text (text : PyStr) (maxT ovT : Nat) : List PyStr :=
  splitLargeLoop maxT ovT (pySplit '\n' text) [] [] 0

/-! ## chunker.py: `_split_into_sections` (line-level model of the regex) -/

/-- A line matched by `^##\s+(.+)$`: starts with `##`, then at least one
whitespace character, then a non-empty remainder. -/
def isHeaderLine (l : PyStr) : Bool :=
  (l.take 2 == ['#', '#']) &&
    (match l.drop 2 with
     | c :: _ => cWS c
     | [] => false) &&
    !((l.drop 2).dropWhile cWS).isEmpty

/-- The captured group of a header line (`\s+` is greedy, `(.+)` takes the
rest of the line). -/
def headerOf (l : PyStr) : PyStr := (l.drop 2).dropWhile cWS

/-- Close one accumulated section: strip header and body; keep the pair when
either survives stripping (Python: `if header or body`; the leading intro
segment has an empty header and is kept only when its body is non-empty). -/
def closeSection (hdr : PyStr) (bodyLines : List PyStr) : List (PyStr × PyStr) :=
  let h := pyStrip hdr
  let b := pyStrip (joinNl bodyLines)
  if h.isEmpty ∧ b.isEmpty then [] else [(h, b)]

/-- Group lines under the most recent header line. -/
def gatherSections : List PyStr → PyStr → List PyStr → List (PyStr × PyStr)
  | [], hdr, body => closeSection hdr body
  | l :: rest, hdr, body =>
    if isHeaderLine l then
      closeSection hdr body ++ gatherSections rest (headerOf l) []
    else
      gatherSections rest hdr (body ++ [l])

/-- `_split_into_sections(content)` from chunker.py. -/
def split_into_sections (content : PyStr) : List (PyStr × PyStr) :=
  gatherSections (pySplit '\n' content) [] []

/-! ## chunker.py: `chunk_page` -/

/-- The `WikiChunk` dataclass (`metadata` is the `{"section": …}` dict,
kept as its single value). -/
structure WikiChunk where
  page_id : Nat
  chunk_index : Nat
  title : PyStr
  section_header : PyStr
  content : PyStr
  token_count : Nat
  page_type : PyStr
  categories : List PyStr
  game_modes : List PyStr
  metadata_section : PyStr
deriving DecidableEq, Inhabited

/-- Mutable locals of the section loop in `chunk_page`. -/
structure ChunkState where
  chunks : List WikiChunk
  chunk_index : Nat
  buffer_header : PyStr
  buffer_content : PyStr
deriving DecidableEq

/-- Headers skipped by `chunk_page` (compared lowercased). -/
def EXCLUDED_HEADERS : List PyStr :=
  ["references".data, "external links".data, "see also".data, "gallery".data]

/-- One iteration of the `for sub in sub_chunks` loop inside the
too-large branch of `chunk_page`: emit the sub-chunk if it meets the
minimum, otherwise drop it. -/
def subStep (page_id : Nat) (title ptype : PyStr) (cats : List PyStr)
    (header : PyStr) (s : ChunkState) (sub : PyStr) : ChunkState :=
  let sub_tokens := estimate_tokens sub
  if MIN_CHUNK_TOKENS ≤ sub_tokens then
    { s with
      chunks := s.chunks ++
        [{ page_id := page_id, chunk_index := s.chunk_index,
           title := title, section_header := header,
           content := pyStrip sub, token_count := sub_tokens,
           page_type := ptype, categories := cats,
           game_modes := detect_game_modes sub title cats,
           metadata_section := header }],
      chunk_index := s.chunk_index + 1 }
  else s

/-- One iteration of the `for section_header, section_content in sections`
loop of `chunk_page`. -/
def processSection (page_id : Nat) (title ptype : PyStr) (cats : List PyStr)
    (st : ChunkState) (sec : PyStr × PyStr) : ChunkState :=
  let header := if sec.1.isEmpty then title else sec.1
  let text := pyStrip sec.2
  if text.isEmpty then st
  else if pyLower header ∈ EXCLUDED_HEADERS then st
  else
    let combined :=
      if st.buffer_content.isEmpty then text
      else st.buffer_content ++ '\n' :: text
    let combined_tokens := estimate_tokens combined
    if combined_tokens < MIN_CHUNK_TOKENS then
      { st with
        buffer_content := combined,
        buffer_header :=
          if st.buffer_header.isEmpty ∨ st.buffer_header = title then header
          else st.buffer_header }
    else if combined_tokens ≤ MAX_CHUNK_TOKENS then
      { chunks := st.chunks ++
          [{ page_id := page_id, chunk_index := st.chunk_index, title := title,
             section_header :=
               if st.buffer_content.isEmpty then header else st.buffer_header,
             content := pyStrip combined, token_count := combined_tokens,
             page_type := ptype, categories := cats,
             game_modes := detect_game_modes combined title cats,
             metadata_section := header }],
        chunk_index := st.chunk_index + 1,
        buffer_header := [], buffer_content := [] }
    else
      let st1 :=
        if st.buffer_content.isEmpty then st
        else
          let buf_tokens := estimate_tokens st.buffer_content
          if MIN_CHUNK_TOKENS ≤ buf_tokens then
            { chunks := st.chunks ++
                [{ page_id := page_id, chunk_index := st.chunk_index,
                   title := title, section_header := st.buffer_header,
                   content := pyStrip st.buffer_content,
                   token_count := buf_tokens, page_type := ptype,
                   categories := cats,
                   game_modes := detect_game_modes st.buffer_content title cats,
                   metadata_section := st.buffer_header }],
              chunk_index := st.chunk_index + 1,
              buffer_header := [], buffer_content := [] }
          else
            { st with buffer_header := [], buffer_content := [] }
      (split_large_text text MAX_CHUNK_TOKENS OVERLAP_TOKENS).foldl
        (subStep page_id title ptype cats header) st1

/-- The section loop of `chunk_page`, starting from the source's initial
state (`buffer_header = title`, empty buffer). -/
def chunkFold (page_id : Nat) (title ptype : PyStr) (cats : List PyStr)
    (sections : List (PyStr × PyStr)) : ChunkState :=
  sections.foldl (processSection page_id title ptype cats)
    ⟨[], 0, title, []⟩

/-- The final `# Flush any remaining buffer` block of `chunk_page`,
including its `buf_tokens >= MIN_CHUNK_TOKENS` guard. -/
def finalFlush (page_id : Nat) (title ptype : PyStr) (cats : List PyStr)
    (st : ChunkState) : List WikiChunk :=
  if (pyStrip st.buffer_content).isEmpty then st.chunks
  else
    let buf_tokens := estimate_tokens st.buffer_content
    if MIN_CHUNK_TOKENS ≤ buf_tokens then
      st.chunks ++
        [{ page_id := page_id, chunk_index := st.chunk_index, title := title,
           section_header :=
             if st.buffer_header.isEmpty then title else st.buffer_header,
           content := pyStrip st.buffer_content, token_count := buf_tokens,
           page_type := ptype, categories := cats,
           game_modes := detect_game_modes st.buffer_content title cats,
           metadata_section :=
             if st.buffer_header.isEmpty then title else st.buffer_header }]
    else st.chunks

/-- `chunk_page` up to (but not including) the final metadata-prefix pass:
the chunks with their original, pre-prefix content and the token estimate
taken on that content. -/
def chunk_page_core (page_id : Nat) (title content ptype : PyStr)
    (cats : List PyStr) : List WikiChunk :=
  if (pyStrip content).isEmpty then []
  else
    finalFlush page_id title ptype cats
      (chunkFold page_id title ptype cats (split_into_sections content))

/-- The `# Prepend page title context to each chunk` pass of `chunk_page`. -/
def addMetaPfx (title ptype : PyStr) (c : WikiChunk) : WikiChunk :=
  let pfx : PyStr :=
    "Page: ".data ++ title ++
      (if ¬c.section_header.isEmpty ∧ c.section_header ≠ title then
        " | Section: ".data ++ c.section_header
      else []) ++
      " | Type: ".data ++ ptype ++ "\n\n".data
  { c with content := pfx ++ c.content,
           token_count := estimate_tokens (pfx ++ c.content) }

/-- `chunk_page(page_id, title, content, page_type, categories)`. -/
def chunk_page (page_id : Nat) (title content ptype : PyStr)
    (cats : List PyStr) : List WikiChunk :=
  (chunk_page_core page_id title content ptype cats).map (addMetaPfx title ptype)

/-! ## vector_search.py: constants, section keywords, data types -/

/-- `TITLE_BOOST = 0.30`. -/
def TITLE_BOOST : ℚ := 0.30

/-- `SECTION_BOOST = 0.10`. -/
def SECTION_BOOST : ℚ := 0.10

/-- `XREF_BOOST = 0.20`. -/
def XREF_BOOST : ℚ := 0.20

/-- `_SECTION_KEYWORDS`: query trigger → candidate section headers.
Modelled as an association list in source order. -/
def SECTION_KEYWORDS : List (PyStr × List PyStr) :=
  [("requirement".data,
    ["requirements".data, "details".data, "quest requirements".data,
     "skill requirements".data]),
   ("drop".data,
    ["drops".data, "drop rates".data, "loot".data, "rare drop table".data]),
   ("strateg".data,
    ["strategy".data, "strategies".data, "guide".data, "walkthrough".data]),
   ("reward".data, ["rewards".data, "completion".data]),
   ("location".data,
    ["location".data, "getting there".data, "how to get there".data]),
   ("how to get".data,
    ["location".data, "getting there".data, "transportation".data]),
   ("where".data, ["location".data, "getting there".data]),
   ("spec".data, ["special attack".data, "combat".data]),
   ("stats".data, ["stats".data, "bonuses".data, "combat stats".data]),
   ("price".data, ["price".data, "value".data, "cost".data, "exchange".data]),
   ("quest".data,
    ["details".data, "requirements".data, "rewards".data, "walkthrough".data])]

/-- `_extract_section_keywords(query)`: union of the section lists of all
triggers occurring in the lowercased query.  The Python `set` is modelled
as a list (possibly with duplicates); only membership and emptiness are
ever consumed downstream. -/
def extract_section_keywords (query : PyStr) : List PyStr :=
  let q := pyLower query
  SECTION_KEYWORDS.foldl
    (fun acc p => if p.1 <:+: q then acc ++ p.2 else acc) []

/-- One row as returned by the store for any of the three chunk queries
(`search_wiki`, the Pass-2 title-match query, the Pass-3 title-equality
query).  `1 - (embedding <=> $1)` arrives as the exact rational
`similarity`; the unused `title_length` output column is omitted. -/
structure Row where
  chunk_id : Nat
  page_title : PyStr
  section_header : PyStr
  content : PyStr
  page_type : PyStr
  categories : List PyStr
  similarity : ℚ
deriving DecidableEq

/-- The `SearchResult` dataclass, after `__post_init__` derived the URL. -/
structure SearchResult where
  chunk_id : Nat
  title : PyStr
  section_header : PyStr
  content : PyStr
  page_type : PyStr
  categories : List PyStr
  similarity : ℚ
  url : PyStr
deriving DecidableEq

/-- `__post_init__`: canonical URL from the title (spaces → underscores). -/
def urlFor (title : PyStr) : PyStr :=
  "https://oldschool.runescape.wiki/w/".data ++
    title.map (fun c => if c = ' ' then '_' else c)

/-- Build a `SearchResult` from a store row and a (possibly boosted)
similarity, as every `SearchResult(...)` construction site in `search`
does (`categories or []` and `section_header or ""` degrade to the row's
own fields in this model, where absent values are empty). -/
def mkSearchResult (row : Row) (sim : ℚ) : SearchResult :=
  { chunk_id := row.chunk_id, title := row.page_title,
    section_header := row.section_header, content := row.content,
    page_type := row.page_type, categories := row.categories,
    similarity := sim, url := urlFor row.page_title }

/-! ## vector_search.py: the `seen_ids` dict -/

/-- The `seen_ids: dict[int, SearchResult]` of `search`, modelled as an
association list in CPython insertion order: assigning to an existing key
replaces the value in place, a fresh key is appended at the end. -/
abbrev ResultDict := List (Nat × SearchResult)

/-- `cid in seen_ids`. -/
def dictMem (d : ResultDict) (k : Nat) : Bool := d.any (fun p => p.1 == k)

/-- `seen_ids[cid] = v`. -/
def dictInsert (d : ResultDict) (k : Nat) (v : SearchResult) : ResultDict :=
  if dictMem d k then d.map (fun p => if p.1 == k then (k, v) else p)
  else d ++ [(k, v)]

/-- `seen_ids.values()` (iteration order = insertion order). -/
def dictValues (d : ResultDict) : List SearchResult := d.map Prod.snd

/-! ## vector_search.py: boosting, shadowing, sorting -/

/-- The section-boost test of Passes 2 and 3:
`section = (row["section_header"] or "").lower()` followed by
`if section and section_keywords: if any(kw in section for kw in section_keywords)`. -/
def sectionBoostApplies (kw : List PyStr) (section_header : PyStr) : Bool :=
  let s := pyLower section_header
  !s.isEmpty && !kw.isEmpty && kw.any (fun k => decide (k <:+: s))

/-- Pass-2 boost for one row: `TITLE_BOOST`, plus `SECTION_BOOST` when the
section header matches the query intent. -/
def pass2Boost (kw : List PyStr) (row : Row) : ℚ :=
  TITLE_BOOST + (if sectionBoostApplies kw row.section_header then SECTION_BOOST else 0)

/-- Pass-3 boost for one row: `XREF_BOOST`, plus `SECTION_BOOST` when the
section header matches the query intent. -/
def xrefBoost (kw : List PyStr) (row : Row) : ℚ :=
  XREF_BOOST + (if sectionBoostApplies kw row.section_header then SECTION_BOOST else 0)

/-- The shadow test for one lowered title against the matched-title set:
`t != other and t in other and len(t) < len(other)` for some `other`. -/
def isShadowed (matched : List PyStr) (t : PyStr) : Bool :=
  matched.any
    (fun other => decide (t ≠ other ∧ t <:+: other ∧ t.length < other.length))

/-- Descending-similarity order used by both `sorted(..., reverse=True)`
calls in `search`. -/
def SimDesc (a b : SearchResult) : Prop := b.similarity ≤ a.similarity

instance : DecidableRel SimDesc := fun a b => inferInstanceAs (Decidable (b.similarity ≤ a.similarity))

instance : IsTotal SearchResult SimDesc :=
  ⟨fun a b => le_total b.similarity a.similarity⟩

instance : IsTrans SearchResult SimDesc :=
  ⟨fun _ _ _ h1 h2 => le_trans h2 h1⟩

/-- `sorted(seen_ids.values(), key=lambda r: r.similarity, reverse=True)`:
a stable descending sort, modelled by insertion sort. -/
def sortResults (l : List SearchResult) : List SearchResult :=
  List.insertionSort SimDesc l

/-- The merge of the Pass-2 `title_rows` into a fresh `seen_ids` dict, with
shadowed titles skipped and the clamped title/section boost applied. -/
def pass2Merge (rows : List Row) (shadowedL : List PyStr) (kw : List PyStr) :
    ResultDict :=
  rows.foldl
    (fun d row =>
      if pyLower row.page_title ∈ shadowedL then d
      else
        dictInsert d row.chunk_id
          (mkSearchResult row (min (row.similarity + pass2Boost kw row) 1)))
    []

/-- The Pass-1 merge: unseen vector rows fill remaining identities with
their unboosted similarity. -/
def pass1Fill (d : ResultDict) (rows : List Row) : ResultDict :=
  rows.foldl
    (fun d row =>
      if dictMem d row.chunk_id then d
      else dictInsert d row.chunk_id (mkSearchResult row row.similarity))
    d

/-! ## vector_search.py: title index and `_find_references` -/

/-- Descending-length order on `(title_lower, title_original)` pairs
(`key=lambda t: len(t[0]), reverse=True`). -/
def LenDesc (a b : PyStr × PyStr) : Prop := b.1.length ≤ a.1.length

instance : DecidableRel LenDesc := fun a b => inferInstanceAs (Decidable (b.1.length ≤ a.1.length))

instance : IsTotal (PyStr × PyStr) LenDesc :=
  ⟨fun a b => le_total b.1.length a.1.length⟩

instance : IsTrans (PyStr × PyStr) LenDesc :=
  ⟨fun _ _ _ h1 h2 => le_trans h2 h1⟩

/-- `_get_title_index`: the fetched titles (the SQL filters
`LENGTH(title) >= 6`), lowered, paired with the original, and sorted by
length descending.  The per-process cache only affects repeated calls and
is not modelled. -/
def get_title_index (titleRows : List PyStr) : List (PyStr × PyStr) :=
  List.insertionSort LenDesc
    ((titleRows.filter (fun t => 6 ≤ t.length)).map (fun t => (pyLower t, t)))

/-- The title scan loop of `_find_references`; `found` and `found_lower`
are the two accumulators of the source (the set `found_lower` as a list). -/
def findRefsLoop (content_lower query_lower : PyStr) (exclude : List PyStr) :
    List (PyStr × PyStr) → List PyStr → List PyStr → List PyStr
  | [], found, _ => found
  | (title_lower, title_original) :: rest, found, found_lower =>
    if title_lower ∈ exclude ∨ title_lower ∈ found_lower then
      findRefsLoop content_lower query_lower exclude rest found found_lower
    else if title_lower <:+: query_lower then
      findRefsLoop content_lower query_lower exclude rest found found_lower
    else if title_lower <:+: content_lower then
      let found' := found ++ [title_original]
      if 3 ≤ found'.length then found'
      else findRefsLoop content_lower query_lower exclude rest found'
        (found_lower ++ [title_lower])
    else
      findRefsLoop content_lower query_lower exclude rest found found_lower

/-- `_find_references(content, query, exclude_titles)` over a given title
index (`self._title_index or []`). -/
def find_references (index : List (PyStr × PyStr)) (content query : PyStr)
    (exclude : List PyStr) : List PyStr :=
  findRefsLoop (pyLower content) (pyLower query) exclude index [] []

/-! ## vector_search.py: `search` -/

/-- Query embeddings are opaque to the Python-side logic. -/
abbrev Embedding := List ℚ

/-- The store as a black-box oracle.  Each field models one of the four
SQL interactions of `search`; a `.error` models a raised store exception. -/
structure Store where
  searchWiki : Embedding → Nat → Option PyStr → Option PyStr → Except Unit (List Row)
  titleMatch : Embedding → PyStr → Option PyStr → Option PyStr → Nat → Except Unit (List Row)
  titleRows : Except Unit (List PyStr)
  xrefFetch : Embedding → PyStr → Option PyStr → Option PyStr → Nat → Except Unit (List Row)

/-- The Pass-3 `for ref_title in referenced` loop: each referenced title is
fetched and its unseen chunks merged with the clamped cross-reference
boost. -/
def xrefMergeRows (kw : List PyStr) (d : ResultDict) (rows : List Row) :
    ResultDict :=
  rows.foldl
    (fun d row =>
      if dictMem d row.chunk_id then d
      else
        dictInsert d row.chunk_id
          (mkSearchResult row (min (row.similarity + xrefBoost kw row) 1)))
    d

/-- Sequential Pass-3 fetches; a store failure aborts the whole `try` body. -/
def xrefLoop (store : Store) (emb : Embedding) (pt gm : Option PyStr)
    (top_k : Nat) (kw : List PyStr) :
    List PyStr → ResultDict → Except Unit ResultDict
  | [], d => .ok d
  | t :: rest, d => do
    let rows ← store.xrefFetch emb t pt gm top_k
    xrefLoop store emb pt gm top_k kw rest (xrefMergeRows kw d rows)

/-- The body of the big `try:` block of `search` (everything after the
query has been embedded): Pass 1, Pass 2, shadow filtering, the merge,
Pass 3, final sort and truncation.  Any store `.error` escapes to the
caller of `searchBody`, as a raised exception escapes to the `except`. -/
def searchBody (store : Store) (emb : Embedding) (query : PyStr)
    (top_k : Nat) (pt gm : Option PyStr) : Except Unit (List SearchResult) := do
  let vector_rows ← store.searchWiki emb top_k pt gm
  let title_rows ← store.titleMatch emb query pt gm (top_k * 3)
  let matched_titles := title_rows.map (fun r => pyLower r.page_title)
  let shadowedL := matched_titles.filter (isShadowed matched_titles)
  let section_keywords := extract_section_keywords query
  let seen1 := pass2Merge title_rows shadowedL section_keywords
  let seen2 := pass1Fill seen1 vector_rows
  let interim := sortResults (dictValues seen2)
  let top_content := joinSpace ((interim.take 3).map (fun r => r.content))
  let seen3 ←
    if top_content.isEmpty then pure seen2
    else do
      let idxRows ← store.titleRows
      let index := get_title_index idxRows
      let referenced :=
        find_references index top_content query (matched_titles ++ shadowedL)
      xrefLoop store emb pt gm top_k section_keywords referenced seen2
  let results := sortResults (dictValues seen3)
  pure (results.take top_k)

/-- `VectorSearch.search(query, top_k, page_type, game_mode)`.  The
embedding step's outcome is passed in (`embed_query` is an external
collaborator); both `except` handlers of the source return `[]`, so the
function is total and never propagates an exception. -/
def search (store : Store) (embedResult : Except Unit Embedding)
    (query : PyStr) (top_k : Nat) (pt gm : Option PyStr) : List SearchResult :=
  match embedResult with
  | .error _ => []
  | .ok emb =>
    match searchBody store emb query top_k pt gm with
    | .error _ => []
    | .ok res => res

/-! ## Derived notions used to state the claims -/

/-- A string in "stripped form": non-empty, with non-whitespace first and
last characters (so `pyStrip` is the identity on it). -/
def Tidy (s : PyStr) : Prop :=
  s ≠ [] ∧ (∀ c ∈ s.head?, cWS c = false) ∧ (∀ c ∈ s.getLast?, cWS c = false)

/-- Invariant of the section loop: a non-empty rolling buffer always holds
content whose token estimate is below the minimum (it is only ever filled
from the `combined_tokens < MIN_CHUNK_TOKENS` branch). -/
def BufSmall (st : ChunkState) : Prop :=
  st.buffer_content ≠ [] → estimate_tokens st.buffer_content < MIN_CHUNK_TOKENS

/-- Concatenation with a newline separator, ignoring empty sides: the shape
`buffer + "\n" + text if buffer else text` used by the section loop.
`[]` is a two-sided identity and the operation is associative. -/
def joinTwo (a b : PyStr) : PyStr :=
  if a.isEmpty then b else if b.isEmpty then a else a ++ '\n' :: b

/-- The (stripped) texts of the sections of a page that `chunk_page`
actually processes: non-empty after stripping and not carrying an excluded
header (an empty section header stands for the page title). -/
def nonExcludedTexts (title : PyStr) (sections : List (PyStr × PyStr)) :
    List PyStr :=
  sections.filterMap (fun sec =>
    let header := if sec.1.isEmpty then title else sec.1
    let text := pyStrip sec.2
    if text.isEmpty then none
    else if pyLower header ∈ EXCLUDED_HEADERS then none
    else some text)

/-- Well-formedness of the `seen_ids` dict: keys are pairwise distinct and
every stored result's `chunk_id` equals its key. -/
def GoodDict (d : ResultDict) : Prop :=
  (d.map Prod.fst).Nodup ∧ ∀ p ∈ d, p.2.chunk_id = p.1

/-- Upper bound on all similarities stored in the dict. -/
def ValuesLe1 (d : ResultDict) : Prop :=
  ∀ r ∈ dictValues d, r.similarity ≤ 1

/-- What holds of every chunk the section loop ever emits: its recorded
`token_count` (the estimate taken before stripping) meets the minimum, and
the estimate of the stored (stripped) content is at most that count. -/
def ChunkOK (c : WikiChunk) : Prop :=
  MIN_CHUNK_TOKENS ≤ c.token_count ∧
    estimate_tokens c.content ≤ c.token_count

/-- Invariant carried through the section loop for the coverage argument:
the buffer is under-minimum and in stripped form, and emitted contents are
non-empty. -/
def CovInv (st : ChunkState) : Prop :=
  BufSmall st ∧ (st.buffer_content ≠ [] → Tidy st.buffer_content) ∧
    ∀ c ∈ st.chunks, c.content ≠ []

/-- All page content currently accounted for by the section loop's state:
the emitted chunks' contents joined by newlines, followed by the rolling
buffer. -/
def covContent (st : ChunkState) : PyStr :=
  joinTwo (joinNl (st.chunks.map (fun c => c.content))) st.buffer_content

/-! ## Concrete instances used by counterexamples and witnesses -/

/-- One three-character paragraph (token estimate `3 // 4 = 0`). -/
def abcPara : PyStr := ['a', 'b', 'c']

/-- 1002 such paragraphs joined by newlines: 4007 characters, token
estimate 1001 — an oversized single-section page on which
`_split_large_text` never flushes (all per-paragraph estimates are 0, so
`current_tokens` stays 0) and returns one sub-chunk above the maximum. -/
def bigContent : PyStr := joinNl (List.replicate 1002 abcPara)

/-- A Pass-1 row whose content mentions an indexed page ("swordfish"). -/
def row1 : Row :=
  { chunk_id := 1, page_title := "Barrows gloves".data, section_header := [],
    content := "Has swordfish".data, page_type := "item".data,
    categories := [], similarity := 1/2 }

/-- A store on which Pass 1 succeeds (one row), Pass 2 succeeds (no rows),
the title index loads, and every Pass-3 cross-reference fetch fails. -/
def store1 : Store :=
  { searchWiki := fun _ _ _ _ => .ok [row1],
    titleMatch := fun _ _ _ _ _ => .ok [],
    titleRows := .ok ["Swordfish".data],
    xrefFetch := fun _ _ _ _ _ => .error () }

/-- A Pass-2 row with base similarity 0.95 and no section header. -/
def rowW : Row :=
  { chunk_id := 7, page_title := "Dragon Slayer II".data,
    section_header := [], content := "x".data, page_type := "quest".data,
    categories := [], similarity := 19/20 }

/-- Matched-title chain for the shadow filter: "abcdef". -/
def rowA : Row :=
  { chunk_id := 1, page_title := "abcdef".data, section_header := [],
    content := "a1".data, page_type := "q".data, categories := [],
    similarity := 1/2 }

/-- Matched-title chain: "abcdefg" (longer than `rowA`'s title, itself
contained in `rowC`'s title). -/
def rowB : Row :=
  { chunk_id := 2, page_title := "abcdefg".data, section_header := [],
    content := "b2".data, page_type := "q".data, categories := [],
    similarity := 1/2 }

/-- Matched-title chain: "abcdefgh" (the longest). -/
def rowC : Row :=
  { chunk_id := 3, page_title := "abcdefgh".data, section_header := [],
    content := "c3".data, page_type := "q".data, categories := [],
    similarity := 1/2 }

/-- A small all-'a' page (200 characters, token estimate 50) that yields
exactly one chunk. -/
def w4page : PyStr := List.replicate 200 'a'

/-- The single chunk produced for `w4page`. -/
def w4chunk : WikiChunk :=
  (chunk_page_core 1 ['P'] w4page "item".data []).headI

/-! # Theorems

Helper lemmas first, then one theorem per claim (with counterexamples and
witnesses where applicable). -/

/-! ## Generic list/string lemmas -/

theorem dropWhile_eq_self_of_head? {p : Char → Bool} {l : PyStr}
    (h : ∀ c ∈ l.head?, p c = false) : l.dropWhile p = l := by
  cases l with
  | nil => rfl
  | cons a t =>
    have ha : p a = false := h a rfl
    simp [List.dropWhile_cons, ha]

theorem head?_dropWhile_false {p : Char → Bool} :
    ∀ l : PyStr, ∀ c ∈ (l.dropWhile p).head?, p c = false := by
  intro l
  induction l with
  | nil => intro c hc; simp at hc
  | cons a t ih =>
    intro c hc
    by_cases ha : p a
    · rw [List.dropWhile_cons, if_pos ha] at hc
      exact ih c hc
    · rw [List.dropWhile_cons, if_neg ha] at hc
      simp at hc
      subst hc
      simpa using ha

theorem getLast?_dropWhile {p : Char → Bool} :
    ∀ l : PyStr, l.dropWhile p ≠ [] → (l.dropWhile p).getLast? = l.getLast? := by
  intro l
  induction l with
  | nil => intro h; simp at h
  | cons a t ih =>
    intro h
    by_cases ha : p a
    · rw [List.dropWhile_cons, if_pos ha] at h ⊢
      cases t with
      | nil => simp at h
      | cons b u => rw [List.getLast?_cons_cons]; exact ih h
    · rw [List.dropWhile_cons, if_neg ha]

theorem Tidy.strip_eq {s : PyStr} (h : Tidy s) : pyStrip s = s := by
  obtain ⟨hne, hh, hl⟩ := h
  have h1 : s.dropWhile cWS = s := dropWhile_eq_self_of_head? hh
  have h2 : s.reverse.dropWhile cWS = s.reverse := by
    apply dropWhile_eq_self_of_head?
    intro c hc
    rw [List.head?_reverse] at hc
    exact hl c hc
  rw [pyStrip, h1, h2, List.reverse_reverse]

theorem strip_Tidy {s : PyStr} (h : pyStrip s ≠ []) : Tidy (pyStrip s) := by
  rw [pyStrip] at h ⊢
  set A := s.dropWhile cWS with hA
  set B := A.reverse.dropWhile cWS with hB
  have hBne : B ≠ [] := by
    intro he
    rw [he] at h
    simp at h
  refine ⟨h, ?_, ?_⟩
  · intro c hc
    rw [List.head?_reverse] at hc
    rw [getLast?_dropWhile A.reverse hBne, List.getLast?_reverse] at hc
    exact head?_dropWhile_false s c hc
  · intro c hc
    rw [List.getLast?_reverse] at hc
    exact head?_dropWhile_false A.reverse c hc

theorem head?_append_left {α : Type} {a : List α} (b : List α) (h : a ≠ []) :
    (a ++ b).head? = a.head? := by
  cases a with
  | nil => exact absurd rfl h
  | cons x t => rfl

theorem getLast?_append_right {α : Type} (a : List α) {b : List α} (h : b ≠ []) :
    (a ++ b).getLast? = b.getLast? := by
  induction a with
  | nil => rfl
  | cons x t ih =>
    cases htb : t ++ b with
    | nil => exact absurd (List.append_eq_nil.mp htb).2 h
    | cons y u =>
      rw [List.cons_append, htb, List.getLast?_cons_cons, ← htb, ih]

theorem Tidy.concat {a b : PyStr} (ha : Tidy a) (hb : Tidy b) :
    Tidy (a ++ '\n' :: b) := by
  obtain ⟨hane, hah, hal⟩ := ha
  obtain ⟨hbne, hbh, hbl⟩ := hb
  refine ⟨by simp [hane], ?_, ?_⟩
  · intro c hc
    rw [head?_append_left _ hane] at hc
    exact hah c hc
  · intro c hc
    have : ('\n' :: b).getLast? = b.getLast? := by
      cases b with
      | nil => exact absurd rfl hbne
      | cons y u => rw [List.getLast?_cons_cons]
    rw [getLast?_append_right _ (by simp), this] at hc
    exact hbl c hc

/-! ## Claim C10 -/

/-- C10: `detect_game_modes` is independent of its `categories` argument
(the lowercased copy is never read), and its result is never empty: it is
always one of the three fixed branch outputs. -/
theorem claim_C10 (text title : PyStr) (c1 c2 : List PyStr) :
    detect_game_modes text title c1 = detect_game_modes text title c2 ∧
      detect_game_modes text title c1 ≠ [] := by
  refine ⟨rfl, ?_⟩
  unfold detect_game_modes
  dsimp only
  split
  · simp
  · split <;> simp

/-! ## The rolling buffer only ever holds under-minimum content -/

theorem subStep_buffer_content (page_id : Nat) (title ptype : PyStr)
    (cats : List PyStr) (header : PyStr) (s : ChunkState) (sub : PyStr) :
    (subStep page_id title ptype cats header s sub).buffer_content =
      s.buffer_content := by
  unfold subStep
  dsimp only
  split <;> rfl

theorem subFold_buffer_content (page_id : Nat) (title ptype : PyStr)
    (cats : List PyStr) (header : PyStr) (subs : List PyStr) :
    ∀ s : ChunkState,
      (subs.foldl (subStep page_id title ptype cats header) s).buffer_content =
        s.buffer_content := by
  induction subs with
  | nil => intro s; rfl
  | cons x xs ih =>
    intro s
    rw [List.foldl_cons, ih, subStep_buffer_content]

theorem processSection_BufSmall (page_id : Nat) (title ptype : PyStr)
    (cats : List PyStr) (st : ChunkState) (sec : PyStr × PyStr)
    (h : BufSmall st) :
    BufSmall (processSection page_id title ptype cats st sec) := by
  unfold BufSmall at h ⊢
  unfold processSection
  dsimp only
  split_ifs <;> intro hc <;>
    try rw [subFold_buffer_content] at hc ⊢
  all_goals
    first
      | exact h hc
      | assumption
      | simp at hc

theorem foldl_BufSmall (page_id : Nat) (title ptype : PyStr)
    (cats : List PyStr) (sections : List (PyStr × PyStr)) :
    ∀ st : ChunkState, BufSmall st →
      BufSmall (sections.foldl (processSection page_id title ptype cats) st) := by
  induction sections with
  | nil => intro st h; exact h
  | cons s rest ih =>
    intro st h
    rw [List.foldl_cons]
    exact ih _ (processSection_BufSmall page_id title ptype cats st s h)

theorem chunkFold_BufSmall (page_id : Nat) (title ptype : PyStr)
    (cats : List PyStr) (sections : List (PyStr × PyStr)) :
    BufSmall (chunkFold page_id title ptype cats sections) := by
  apply foldl_BufSmall
  intro h
  exact absurd rfl h

theorem finalFlush_of_BufSmall (page_id : Nat) (title ptype : PyStr)
    (cats : List PyStr) (st : ChunkState) (h : BufSmall st) :
    finalFlush page_id title ptype cats st = st.chunks := by
  by_cases hb : st.buffer_content = []
  · unfold finalFlush
    rw [hb]
    rfl
  · have hlt := h hb
    unfold finalFlush
    by_cases hs : (pyStrip st.buffer_content).isEmpty
    · rw [if_pos hs]
    · rw [if_neg hs]
      dsimp only
      rw [if_neg (Nat.not_le.mpr hlt)]

/-! ## Claim C2 -/

/-- C2 (code bug): the spec requires the end-of-page buffer to be flushed
as a final chunk regardless of the minimum, but the source guards the
final flush with `buf_tokens >= MIN_CHUNK_TOKENS`, and a non-empty buffer
always holds content with estimate `< MIN_CHUNK_TOKENS`, so the flush is
dead code and the tail is always dropped.  First conjunct: on the
non-empty page text `"hello"` the whole page ends up (and stays) in the
buffer and `chunk_page` emits nothing.  Second conjunct: for every page,
the final flush adds no chunk to the section loop's output. -/
theorem claim_C2 :
    (chunk_page 1 "Title".data "hello".data "item".data [] = [] ∧
      (chunkFold 1 "Title".data "item".data []
          (split_into_sections "hello".data)).buffer_content = "hello".data) ∧
    ∀ (page_id : Nat) (title ptype : PyStr) (cats : List PyStr)
      (sections : List (PyStr × PyStr)),
      finalFlush page_id title ptype cats
          (chunkFold page_id title ptype cats sections) =
        (chunkFold page_id title ptype cats sections).chunks := by
  constructor
  · exact ⟨by decide, by decide⟩
  · intro page_id title ptype cats sections
    exact finalFlush_of_BufSmall page_id title ptype cats _
      (chunkFold_BufSmall page_id title ptype cats sections)

/-! ## Claim C4: every emitted chunk meets the minimum -/

theorem pyStrip_length_le (s : PyStr) : (pyStrip s).length ≤ s.length := by
  unfold pyStrip
  rw [List.length_reverse]
  calc ((s.dropWhile cWS).reverse.dropWhile cWS).length
      ≤ (s.dropWhile cWS).reverse.length := (List.dropWhile_sublist _).length_le
    _ = (s.dropWhile cWS).length := List.length_reverse _
    _ ≤ s.length := (List.dropWhile_sublist _).length_le

theorem estimate_tokens_mono {s t : PyStr} (h : s.length ≤ t.length) :
    estimate_tokens s ≤ estimate_tokens t :=
  Nat.div_le_div_right h

theorem estimate_pyStrip_le (s : PyStr) :
    estimate_tokens (pyStrip s) ≤ estimate_tokens s :=
  estimate_tokens_mono (pyStrip_length_le s)

theorem chunksOK_append {l : List WikiChunk} {c0 : WikiChunk}
    (h : ∀ c ∈ l, ChunkOK c) (h0 : ChunkOK c0) :
    ∀ c ∈ l ++ [c0], ChunkOK c := by
  intro c hc
  rcases List.mem_append.mp hc with h1 | h1
  · exact h c h1
  · rw [List.mem_singleton] at h1
    subst h1
    exact h0

theorem subStep_ChunkOK (page_id : Nat) (title ptype : PyStr)
    (cats : List PyStr) (header : PyStr) (s : ChunkState) (sub : PyStr)
    (h : ∀ c ∈ s.chunks, ChunkOK c) :
    ∀ c ∈ (subStep page_id title ptype cats header s sub).chunks, ChunkOK c := by
  unfold subStep
  dsimp only
  split_ifs with hs
  · exact chunksOK_append h ⟨hs, estimate_pyStrip_le _⟩
  · exact h

theorem subFold_ChunkOK (page_id : Nat) (title ptype : PyStr)
    (cats : List PyStr) (header : PyStr) (subs : List PyStr) :
    ∀ s : ChunkState, (∀ c ∈ s.chunks, ChunkOK c) →
      ∀ c ∈ (subs.foldl (subStep page_id title ptype cats header) s).chunks,
        ChunkOK c := by
  induction subs with
  | nil => intro s h; exact h
  | cons x xs ih =>
    intro s h
    rw [List.foldl_cons]
    exact ih _ (subStep_ChunkOK page_id title ptype cats header s x h)

theorem processSection_ChunkOK (page_id : Nat) (title ptype : PyStr)
    (cats : List PyStr) (st : ChunkState) (sec : PyStr × PyStr)
    (h : ∀ c ∈ st.chunks, ChunkOK c) :
    ∀ c ∈ (processSection page_id title ptype cats st sec).chunks, ChunkOK c := by
  unfold processSection
  dsimp only
  split_ifs
  all_goals try apply subFold_ChunkOK
  all_goals
    first
      | exact h
      | exact chunksOK_append h ⟨by dsimp only; omega, estimate_pyStrip_le _⟩

theorem chunkFold_ChunkOK (page_id : Nat) (title ptype : PyStr)
    (cats : List PyStr) (sections : List (PyStr × PyStr)) :
    ∀ c ∈ (chunkFold page_id title ptype cats sections).chunks, ChunkOK c := by
  unfold chunkFold
  generalize hst : (⟨[], 0, title, []⟩ : ChunkState) = st
  have h0 : ∀ c ∈ st.chunks, ChunkOK c := by
    rw [← hst]
    intro c hc
    simp at hc
  clear hst
  induction sections generalizing st with
  | nil => exact h0
  | cons s rest ih =>
    rw [List.foldl_cons]
    exact ih _ (processSection_ChunkOK page_id title ptype cats st s h0)

theorem finalFlush_ChunkOK (page_id : Nat) (title ptype : PyStr)
    (cats : List PyStr) (st : ChunkState)
    (h : ∀ c ∈ st.chunks, ChunkOK c) :
    ∀ c ∈ finalFlush page_id title ptype cats st, ChunkOK c := by
  unfold finalFlush
  dsimp only
  split_ifs
  all_goals
    first
      | exact h
      | exact chunksOK_append h ⟨by dsimp only; omega, estimate_pyStrip_le _⟩

/-- C4 (amended): every chunk emitted by `chunk_page` — including the last
one — has a recorded token count (the pre-strip, pre-prefix estimate) of
at least `MIN_CHUNK_TOKENS`, and the estimate of its stored content is at
most that count; the upper bound `MAX_CHUNK_TOKENS` is NOT guaranteed for
sub-chunks of an oversized section (see the counterexample). -/
theorem claim_C4_amended (page_id : Nat) (title content ptype : PyStr)
    (cats : List PyStr) (c : WikiChunk)
    (hc : c ∈ chunk_page_core page_id title content ptype cats) :
    MIN_CHUNK_TOKENS ≤ c.token_count ∧
      estimate_tokens c.content ≤ c.token_count := by
  unfold chunk_page_core at hc
  split_ifs at hc
  · simp at hc
  · exact finalFlush_ChunkOK page_id title ptype cats _
      (chunkFold_ChunkOK page_id title ptype cats _) c hc

set_option maxRecDepth 40000 in
/-- Witness for C4 (amended) at the concrete single-chunk page `w4page`. -/
theorem claim_C4_witness :
    MIN_CHUNK_TOKENS ≤ w4chunk.token_count ∧
      estimate_tokens w4chunk.content ≤ w4chunk.token_count :=
  claim_C4_amended 1 ['P'] w4page "item".data [] w4chunk (by decide)

/-! ## Claim C4: counterexample — a sub-chunk can exceed the maximum

`bigContent` is a single-section page of 1002 three-character paragraphs.
Each paragraph's own estimate is `3 // 4 = 0`, so `current_tokens` in
`_split_large_text` never exceeds the threshold and the "oversized" section
comes back as one sub-chunk whose real estimate is 1001 > `MAX_CHUNK_TOKENS`
(the per-paragraph accounting ignores the newline separators). -/

theorem joinNl_rep_succ (n : Nat) :
    joinNl (List.replicate (n + 2) abcPara) =
      abcPara ++ '\n' :: joinNl (List.replicate (n + 1) abcPara) := by
  simp only [List.replicate_succ]
  rfl

theorem joinNl_rep_length (n : Nat) :
    (joinNl (List.replicate (n + 1) abcPara)).length = 4 * n + 3 := by
  induction n with
  | zero => rfl
  | succ m ih =>
    rw [joinNl_rep_succ m]
    simp only [List.length_append, List.length_cons, ih]
    have h3 : abcPara.length = 3 := rfl
    omega

theorem joinNl_rep_head? (n : Nat) :
    (joinNl (List.replicate (n + 1) abcPara)).head? = some 'a' := by
  cases n with
  | zero => rfl
  | succ m => rw [joinNl_rep_succ m]; rfl

theorem joinNl_rep_ne_nil (n : Nat) :
    joinNl (List.replicate (n + 1) abcPara) ≠ [] := by
  intro h
  have := joinNl_rep_head? n
  rw [h] at this
  simp at this

theorem joinNl_rep_getLast? (n : Nat) :
    (joinNl (List.replicate (n + 1) abcPara)).getLast? = some 'c' := by
  induction n with
  | zero => rfl
  | succ m ih =>
    rw [joinNl_rep_succ m]
    rw [getLast?_append_right _ (by simp)]
    have hne := joinNl_rep_ne_nil m
    cases hJ : joinNl (List.replicate (m + 1) abcPara) with
    | nil => exact absurd hJ hne
    | cons y u =>
      rw [List.getLast?_cons_cons, ← hJ, ih]

theorem Tidy_bigContent : Tidy bigContent := by
  refine ⟨joinNl_rep_ne_nil 1001, ?_, ?_⟩
  · intro c hc
    rw [show bigContent = joinNl (List.replicate 1002 abcPara) from rfl,
      joinNl_rep_head? 1001] at hc
    simp at hc
    subst hc
    decide
  · intro c hc
    rw [show bigContent = joinNl (List.replicate 1002 abcPara) from rfl,
      joinNl_rep_getLast? 1001] at hc
    simp at hc
    subst hc
    decide

theorem pyStrip_bigContent : pyStrip bigContent = bigContent :=
  Tidy_bigContent.strip_eq

theorem pySplit_no_sep {sep : Char} {p : PyStr} (h : ∀ c ∈ p, c ≠ sep) :
    pySplit sep p = [p] := by
  induction p with
  | nil => rfl
  | cons c rest ih =>
    have hc : c ≠ sep := h c (List.mem_cons_self c rest)
    have hr := ih (fun x hx => h x (List.mem_cons_of_mem c hx))
    simp only [pySplit, if_neg hc, hr]

theorem pySplit_append_sep {sep : Char} {p : PyStr} (s : PyStr)
    (h : ∀ c ∈ p, c ≠ sep) :
    pySplit sep (p ++ sep :: s) = p :: pySplit sep s := by
  induction p with
  | nil => simp [pySplit]
  | cons c rest ih =>
    have hc : c ≠ sep := h c (List.mem_cons_self c rest)
    have hr := ih (fun x hx => h x (List.mem_cons_of_mem c hx))
    simp only [List.cons_append, pySplit, List.append_eq, if_neg hc, hr]

theorem pySplit_joinNl_rep (n : Nat) :
    pySplit '\n' (joinNl (List.replicate (n + 1) abcPara)) =
      List.replicate (n + 1) abcPara := by
  induction n with
  | zero => exact pySplit_no_sep (by decide)
  | succ m ih =>
    rw [joinNl_rep_succ m, pySplit_append_sep _ (by decide), ih,
      ← List.replicate_succ]

theorem gatherSections_rep (n : Nat) : ∀ body : List PyStr,
    gatherSections (List.replicate n abcPara) [] body =
      closeSection [] (body ++ List.replicate n abcPara) := by
  induction n with
  | zero => intro body; simp [gatherSections]
  | succ m ih =>
    intro body
    rw [List.replicate_succ]
    show gatherSections (abcPara :: List.replicate m abcPara) [] body = _
    rw [gatherSections, if_neg (by decide), ih (body ++ [abcPara])]
    simp [List.append_assoc, List.replicate_succ]

theorem split_into_sections_bigContent :
    split_into_sections bigContent = [([], bigContent)] := by
  unfold split_into_sections
  rw [show pySplit '\n' bigContent = List.replicate 1002 abcPara from
    pySplit_joinNl_rep 1001]
  rw [gatherSections_rep 1002 []]
  unfold closeSection
  dsimp only
  rw [List.nil_append]
  rw [show pyStrip (joinNl (List.replicate 1002 abcPara)) = bigContent from
    pyStrip_bigContent]
  rw [if_neg (fun hAnd =>
    joinNl_rep_ne_nil 1001 (List.isEmpty_iff.mp hAnd.2))]
  rfl

theorem splitLoop_rep (n : Nat) : ∀ (chunks current : List PyStr) (curTok : Nat),
    curTok ≤ 1000 →
    splitLargeLoop 1000 100 (List.replicate n abcPara) chunks current curTok =
      if (current ++ List.replicate n abcPara).isEmpty then chunks
      else chunks ++ [joinNl (current ++ List.replicate n abcPara)] := by
  induction n with
  | zero => intro chunks current curTok h; simp [splitLargeLoop]
  | succ m ih =>
    intro chunks current curTok h
    rw [List.replicate_succ]
    show splitLargeLoop 1000 100 (abcPara :: List.replicate m abcPara)
        chunks current curTok = _
    rw [splitLargeLoop]
    dsimp only
    have habc : estimate_tokens abcPara = 0 := rfl
    rw [if_neg (by rw [habc]; omega)]
    rw [ih chunks (current ++ [abcPara]) (curTok + estimate_tokens abcPara)
      (by rw [habc]; omega)]
    simp [List.append_assoc, List.replicate_succ]

theorem split_large_bigContent :
    split_large_text bigContent MAX_CHUNK_TOKENS OVERLAP_TOKENS = [bigContent] := by
  show splitLargeLoop 1000 100 (pySplit '\n' bigContent) [] [] 0 = [bigContent]
  rw [show pySplit '\n' bigContent = List.replicate 1002 abcPara from
    pySplit_joinNl_rep 1001]
  rw [splitLoop_rep 1002 [] [] 0 (by omega)]
  rw [if_neg (by
    intro hE
    rw [List.nil_append] at hE
    rw [List.isEmpty_iff, List.replicate_eq_nil_iff] at hE
    exact absurd hE (by decide))]
  rfl

theorem bigContent_tokens : estimate_tokens bigContent = 1001 := by
  show bigContent.length / CHARS_PER_TOKEN = 1001
  rw [show bigContent = joinNl (List.replicate 1002 abcPara) from rfl,
    joinNl_rep_length 1001]
  rfl

theorem chunk_page_core_bigContent :
    chunk_page_core 1 ['P'] bigContent "item".data [] =
      [{ page_id := 1, chunk_index := 0, title := ['P'], section_header := ['P'],
         content := bigContent, token_count := 1001, page_type := "item".data,
         categories := [],
         game_modes := detect_game_modes bigContent ['P'] [],
         metadata_section := ['P'] }] := by
  have hne : ¬(bigContent.isEmpty = true) := fun hE =>
    joinNl_rep_ne_nil 1001 (List.isEmpty_iff.mp hE)
  unfold chunk_page_core
  rw [pyStrip_bigContent, if_neg hne]
  rw [split_into_sections_bigContent]
  unfold chunkFold
  rw [List.foldl_cons, List.foldl_nil]
  unfold processSection
  dsimp only
  simp only [List.isEmpty_nil, eq_self_iff_true, if_true]
  rw [pyStrip_bigContent, if_neg hne, if_neg (by decide)]
  rw [bigContent_tokens]
  rw [if_neg (by decide), if_neg (by decide)]
  rw [split_large_bigContent]
  rw [List.foldl_cons, List.foldl_nil]
  unfold subStep
  dsimp only
  rw [bigContent_tokens, if_pos (by decide), pyStrip_bigContent]
  unfold finalFlush
  dsimp only
  rw [if_pos (by decide)]
  simp

/-- C4 (counterexample): on the page `bigContent` the single emitted chunk
has a pre-prefix token estimate of 1001, strictly above `MAX_CHUNK_TOKENS`,
refuting the claimed `[MIN_CHUNK_TOKENS, MAX_CHUNK_TOKENS]` bound (whose
sole allowed exception is a *below-minimum* last chunk). -/
theorem claim_C4_counterexample :
    ((chunk_page_core 1 ['P'] bigContent "item".data []).map
        (fun c => estimate_tokens c.content)) = [1001] ∧
      MAX_CHUNK_TOKENS < 1001 := by
  constructor
  · rw [chunk_page_core_bigContent]
    simp [bigContent_tokens]
  · decide

/-! ## Claim C3: coverage of the non-excluded content -/

/-! joinTwo algebra -/

theorem joinTwo_nil_left (b : PyStr) : joinTwo [] b = b := rfl

theorem joinTwo_nil_right (a : PyStr) : joinTwo a [] = a := by
  unfold joinTwo
  split_ifs with h1 h2
  · exact (List.isEmpty_iff.mp h1).symm
  · rfl
  · simp at h2

theorem joinTwo_ne_nil_right {a b : PyStr} (hb : b ≠ []) : joinTwo a b ≠ [] := by
  unfold joinTwo
  split_ifs with h1 h2
  · exact hb
  · intro he; rw [he] at h1; simp at h1
  · simp

theorem joinTwo_assoc (a b c : PyStr) :
    joinTwo (joinTwo a b) c = joinTwo a (joinTwo b c) := by
  by_cases ha : a.isEmpty <;> by_cases hb : b.isEmpty <;> by_cases hc : c.isEmpty <;>
    simp_all [joinTwo, List.isEmpty_iff, List.append_assoc]

theorem joinTwo_length_left (a b : PyStr) : a.length ≤ (joinTwo a b).length := by
  unfold joinTwo
  split_ifs with h1 h2
  · rw [List.isEmpty_iff.mp h1]; simp
  · exact le_refl _
  · simp [List.length_append]

theorem joinTwo_length_right (a b : PyStr) : b.length ≤ (joinTwo a b).length := by
  unfold joinTwo
  split_ifs with h1 h2
  · exact le_refl _
  · rw [List.isEmpty_iff.mp h2]; simp
  · simp [List.length_append]
    omega

/-! joinNl bridging -/

theorem joinNl_ne_nil' {xs : List PyStr} (h1 : xs ≠ []) (h2 : ∀ x ∈ xs, x ≠ []) :
    joinNl xs ≠ [] := by
  cases xs with
  | nil => exact absurd rfl h1
  | cons x ys =>
    cases ys with
    | nil => exact h2 x (List.mem_cons_self x [])
    | cons z zs =>
      show x ++ '\n' :: pyJoin '\n' (z :: zs) ≠ []
      simp

theorem joinNl_append_single {xs : List PyStr} (y : PyStr) (h : xs ≠ []) :
    joinNl (xs ++ [y]) = joinNl xs ++ '\n' :: y := by
  induction xs with
  | nil => exact absurd rfl h
  | cons x xs' ih =>
    cases xs' with
    | nil => rfl
    | cons z zs =>
      show x ++ '\n' :: joinNl ((z :: zs) ++ [y]) =
        (x ++ '\n' :: joinNl (z :: zs)) ++ '\n' :: y
      rw [ih (by simp)]
      simp [List.append_assoc]

theorem joinNl_append_single_joinTwo {xs : List PyStr} {y : PyStr}
    (hxs : ∀ x ∈ xs, x ≠ []) (hy : y ≠ []) :
    joinNl (xs ++ [y]) = joinTwo (joinNl xs) y := by
  cases hx : xs with
  | nil => simp [joinNl, pyJoin, joinTwo_nil_left]
  | cons x xs' =>
    rw [← hx, joinNl_append_single y (by rw [hx]; simp)]
    have hJ : joinNl xs ≠ [] := joinNl_ne_nil' (by rw [hx]; simp) hxs
    unfold joinTwo
    rw [if_neg (by simpa [List.isEmpty_iff] using hJ),
      if_neg (by simpa [List.isEmpty_iff] using hy)]

theorem joinNl_cons_joinTwo {t : PyStr} {ts : List PyStr} (ht : t ≠ [])
    (hts : ∀ x ∈ ts, x ≠ []) :
    joinNl (t :: ts) = joinTwo t (joinNl ts) := by
  cases ts with
  | nil =>
    rw [show joinNl ([] : List PyStr) = [] from rfl, joinTwo_nil_right]
    rfl
  | cons z zs =>
    show t ++ '\n' :: joinNl (z :: zs) = _
    have hJ : joinNl (z :: zs) ≠ [] := joinNl_ne_nil' (by simp) hts
    unfold joinTwo
    rw [if_neg (by simpa [List.isEmpty_iff] using ht),
      if_neg (by simpa [List.isEmpty_iff] using hJ)]

/-! nonExcludedTexts -/

theorem nonExcludedTexts_cons (title : PyStr) (sec : PyStr × PyStr)
    (rest : List (PyStr × PyStr)) :
    nonExcludedTexts title (sec :: rest) =
      if (pyStrip sec.2).isEmpty then nonExcludedTexts title rest
      else if pyLower (if sec.1.isEmpty then title else sec.1) ∈ EXCLUDED_HEADERS
        then nonExcludedTexts title rest
      else pyStrip sec.2 :: nonExcludedTexts title rest := by
  show List.filterMap _ (sec :: rest) = _
  rw [List.filterMap_cons]
  dsimp only
  split_ifs <;> rfl

theorem nonExcludedTexts_ne_nil (title : PyStr)
    (sections : List (PyStr × PyStr)) :
    ∀ x ∈ nonExcludedTexts title sections, x ≠ [] := by
  intro x hx
  unfold nonExcludedTexts at hx
  rw [List.mem_filterMap] at hx
  obtain ⟨sec, _, hsec⟩ := hx
  dsimp only at hsec
  split_ifs at hsec with hh1 <;>
    first
      | (simp at hsec
         done)
      | (rw [Option.some_inj] at hsec
         subst hsec
         intro he
         exact hh1 (by rw [he]; rfl))

theorem covFold (page_id : Nat) (title ptype : PyStr) (cats : List PyStr) :
    ∀ (sections : List (PyStr × PyStr)) (st : ChunkState),
      CovInv st →
      estimate_tokens (joinTwo st.buffer_content
          (joinNl (nonExcludedTexts title sections))) ≤ MAX_CHUNK_TOKENS →
      CovInv (sections.foldl (processSection page_id title ptype cats) st) ∧
        covContent (sections.foldl (processSection page_id title ptype cats) st) =
          joinTwo (covContent st) (joinNl (nonExcludedTexts title sections)) := by
  intro sections
  induction sections with
  | nil =>
    intro st hinv _
    refine ⟨hinv, ?_⟩
    rw [show nonExcludedTexts title [] = [] from rfl,
      show joinNl ([] : List PyStr) = [] from rfl, joinTwo_nil_right]
    rfl
  | cons sec rest ih =>
    intro st hinv hmax
    rw [List.foldl_cons]
    rw [nonExcludedTexts_cons] at hmax ⊢
    by_cases h1 : (pyStrip sec.2).isEmpty
    · rw [if_pos h1] at hmax ⊢
      have hps : processSection page_id title ptype cats st sec = st := by
        unfold processSection
        dsimp only
        rw [if_pos h1]
      rw [hps]
      exact ih st hinv hmax
    · rw [if_neg h1] at hmax ⊢
      by_cases h2 : pyLower (if sec.1.isEmpty then title else sec.1) ∈ EXCLUDED_HEADERS
      · rw [if_pos h2] at hmax ⊢
        have hps : processSection page_id title ptype cats st sec = st := by
          unfold processSection
          dsimp only
          rw [if_neg h1, if_pos h2]
        rw [hps]
        exact ih st hinv hmax
      · rw [if_neg h2] at hmax ⊢
        have htext_ne : pyStrip sec.2 ≠ [] := fun he => h1 (by rw [he]; rfl)
        have htext_tidy : Tidy (pyStrip sec.2) := strip_Tidy htext_ne
        have hcombined : (if st.buffer_content.isEmpty then pyStrip sec.2
            else st.buffer_content ++ '\n' :: pyStrip sec.2) =
              joinTwo st.buffer_content (pyStrip sec.2) := by
          unfold joinTwo
          by_cases hb : st.buffer_content.isEmpty
          · rw [if_pos hb, if_pos hb]
          · rw [if_neg hb, if_neg hb,
              if_neg (by simpa [List.isEmpty_iff] using htext_ne)]
        obtain ⟨hbs, hbt, hcne⟩ := hinv
        have hcomb_tidy : Tidy (joinTwo st.buffer_content (pyStrip sec.2)) := by
          by_cases hb : st.buffer_content = []
          · rw [hb, joinTwo_nil_left]
            exact htext_tidy
          · unfold joinTwo
            rw [if_neg (by simpa [List.isEmpty_iff] using hb),
              if_neg (by simpa [List.isEmpty_iff] using htext_ne)]
            exact (hbt hb).concat htext_tidy
        have hcomb_ne : joinTwo st.buffer_content (pyStrip sec.2) ≠ [] :=
          joinTwo_ne_nil_right htext_ne
        have hsplitJ : joinNl (pyStrip sec.2 :: nonExcludedTexts title rest) =
            joinTwo (pyStrip sec.2) (joinNl (nonExcludedTexts title rest)) :=
          joinNl_cons_joinTwo htext_ne (nonExcludedTexts_ne_nil title rest)
        have hassoc : joinTwo st.buffer_content
              (joinNl (pyStrip sec.2 :: nonExcludedTexts title rest)) =
            joinTwo (joinTwo st.buffer_content (pyStrip sec.2))
              (joinNl (nonExcludedTexts title rest)) := by
          rw [hsplitJ, ← joinTwo_assoc]
        rw [hassoc] at hmax
        have hcomb_le : estimate_tokens (joinTwo st.buffer_content (pyStrip sec.2)) ≤
            MAX_CHUNK_TOKENS :=
          le_trans (estimate_tokens_mono (joinTwo_length_left _ _)) hmax
        by_cases h3 : estimate_tokens (joinTwo st.buffer_content (pyStrip sec.2)) <
            MIN_CHUNK_TOKENS
        · -- small: the section accumulates into the buffer
          have hps : processSection page_id title ptype cats st sec =
              { st with
                buffer_content := joinTwo st.buffer_content (pyStrip sec.2),
                buffer_header :=
                  if st.buffer_header.isEmpty ∨ st.buffer_header = title
                  then (if sec.1.isEmpty then title else sec.1)
                  else st.buffer_header } := by
            unfold processSection
            dsimp only
            rw [if_neg h1, if_neg h2, hcombined, if_pos h3]
          rw [hps]
          have hinv' : CovInv
              { st with
                buffer_content := joinTwo st.buffer_content (pyStrip sec.2),
                buffer_header :=
                  if st.buffer_header.isEmpty ∨ st.buffer_header = title
                  then (if sec.1.isEmpty then title else sec.1)
                  else st.buffer_header } :=
            ⟨fun _ => h3, fun _ => hcomb_tidy, hcne⟩
          obtain ⟨hi1, hi2⟩ := ih _ hinv' (by exact hmax)
          refine ⟨hi1, ?_⟩
          rw [hi2]
          have hcov' : covContent
              { st with
                buffer_content := joinTwo st.buffer_content (pyStrip sec.2),
                buffer_header :=
                  if st.buffer_header.isEmpty ∨ st.buffer_header = title
                  then (if sec.1.isEmpty then title else sec.1)
                  else st.buffer_header } = joinTwo (covContent st) (pyStrip sec.2) := by
            unfold covContent
            dsimp only
            rw [joinTwo_assoc]
          rw [hcov', hsplitJ, ← joinTwo_assoc]
        · by_cases h4 : estimate_tokens (joinTwo st.buffer_content (pyStrip sec.2)) ≤
              MAX_CHUNK_TOKENS
          · -- good size: emit one chunk, clear the buffer
            have hps : processSection page_id title ptype cats st sec =
                { chunks := st.chunks ++
                    [{ page_id := page_id, chunk_index := st.chunk_index,
                       title := title,
                       section_header :=
                         if st.buffer_content.isEmpty
                         then (if sec.1.isEmpty then title else sec.1)
                         else st.buffer_header,
                       content := pyStrip (joinTwo st.buffer_content (pyStrip sec.2)),
                       token_count :=
                         estimate_tokens (joinTwo st.buffer_content (pyStrip sec.2)),
                       page_type := ptype, categories := cats,
                       game_modes := detect_game_modes
                         (joinTwo st.buffer_content (pyStrip sec.2)) title cats,
                       metadata_section :=
                         if sec.1.isEmpty then title else sec.1 }],
                  chunk_index := st.chunk_index + 1,
                  buffer_header := [], buffer_content := [] } := by
              unfold processSection
              dsimp only
              rw [if_neg h1, if_neg h2, hcombined, if_neg h3, if_pos h4]
            rw [hps]
            have hinv' : CovInv
                { chunks := st.chunks ++
                    [{ page_id := page_id, chunk_index := st.chunk_index,
                       title := title,
                       section_header :=
                         if st.buffer_content.isEmpty
                         then (if sec.1.isEmpty then title else sec.1)
                         else st.buffer_header,
                       content := pyStrip (joinTwo st.buffer_content (pyStrip sec.2)),
                       token_count :=
                         estimate_tokens (joinTwo st.buffer_content (pyStrip sec.2)),
                       page_type := ptype, categories := cats,
                       game_modes := detect_game_modes
                         (joinTwo st.buffer_content (pyStrip sec.2)) title cats,
                       metadata_section :=
                         if sec.1.isEmpty then title else sec.1 }],
                  chunk_index := st.chunk_index + 1,
                  buffer_header := [], buffer_content := [] } := by
              refine ⟨fun hb => absurd rfl hb, fun hb => absurd rfl hb, ?_⟩
              intro c hc
              rcases List.mem_append.mp hc with hm | hm
              · exact hcne c hm
              · rw [List.mem_singleton] at hm
                subst hm
                show pyStrip (joinTwo st.buffer_content (pyStrip sec.2)) ≠ []
                rw [hcomb_tidy.strip_eq]
                exact hcomb_ne
            have hbound' : estimate_tokens (joinTwo ([] : PyStr)
                (joinNl (nonExcludedTexts title rest))) ≤ MAX_CHUNK_TOKENS := by
              rw [joinTwo_nil_left]
              exact le_trans (estimate_tokens_mono (joinTwo_length_right _ _)) hmax
            obtain ⟨hi1, hi2⟩ := ih _ hinv' hbound'
            refine ⟨hi1, ?_⟩
            rw [hi2]
            have hcov' : covContent
                { chunks := st.chunks ++
                    [{ page_id := page_id, chunk_index := st.chunk_index,
                       title := title,
                       section_header :=
                         if st.buffer_content.isEmpty
                         then (if sec.1.isEmpty then title else sec.1)
                         else st.buffer_header,
                       content := pyStrip (joinTwo st.buffer_content (pyStrip sec.2)),
                       token_count :=
                         estimate_tokens (joinTwo st.buffer_content (pyStrip sec.2)),
                       page_type := ptype, categories := cats,
                       game_modes := detect_game_modes
                         (joinTwo st.buffer_content (pyStrip sec.2)) title cats,
                       metadata_section :=
                         if sec.1.isEmpty then title else sec.1 }],
                  chunk_index := st.chunk_index + 1,
                  buffer_header := [], buffer_content := [] } =
                joinTwo (covContent st) (pyStrip sec.2) := by
              unfold covContent
              dsimp only
              rw [joinTwo_nil_right, List.map_append]
              dsimp only [List.map_cons, List.map_nil]
              rw [hcomb_tidy.strip_eq]
              have hmapne : ∀ x ∈ st.chunks.map (fun c => c.content), x ≠ [] := by
                intro x hx
                rw [List.mem_map] at hx
                obtain ⟨c, hc, hceq⟩ := hx
                subst hceq
                exact hcne c hc
              rw [joinNl_append_single_joinTwo hmapne hcomb_ne]
              rw [joinTwo_assoc]
            rw [hcov', hsplitJ, ← joinTwo_assoc]
          · -- too large: impossible under the page-size bound
            exact absurd hcomb_le h4

/-! all-whitespace pages produce no sections -/

theorem pyStrip_eq_nil_iff {s : PyStr} :
    pyStrip s = [] ↔ ∀ c ∈ s, cWS c = true := by
  constructor
  · intro h c hcs
    have hA : ∀ x ∈ (s.dropWhile cWS).reverse, cWS x = true := by
      rw [pyStrip] at h
      rw [List.reverse_eq_nil_iff] at h
      exact List.dropWhile_eq_nil_iff.mp h
    rcases List.mem_append.mp
        (by rw [List.takeWhile_append_dropWhile]; exact hcs :
          c ∈ s.takeWhile cWS ++ s.dropWhile cWS) with hm | hm
    · exact List.mem_takeWhile_imp hm
    · exact hA c (List.mem_reverse.mpr hm)
  · intro h
    have h1 : s.dropWhile cWS = [] := List.dropWhile_eq_nil_iff.mpr h
    rw [pyStrip, h1]
    rfl

theorem pySplit_ne_nil (sep : Char) (s : PyStr) : pySplit sep s ≠ [] := by
  cases s with
  | nil => simp [pySplit]
  | cons c rest =>
    unfold pySplit
    split_ifs
    · simp
    · split <;> simp

theorem mem_of_mem_pySplit (sep : Char) :
    ∀ (s : PyStr), ∀ p ∈ pySplit sep s, ∀ c ∈ p, c ∈ s := by
  intro s
  induction s with
  | nil =>
    intro p hp c hc
    simp [pySplit] at hp
    subst hp
    simp at hc
  | cons a rest ih =>
    intro p hp c hc
    by_cases ha : a = sep
    · have heq : pySplit sep (a :: rest) = [] :: pySplit sep rest := by
        subst ha
        simp only [pySplit, if_true]
      rw [heq] at hp
      rcases List.mem_cons.mp hp with h | h
      · subst h; simp at hc
      · exact List.mem_cons_of_mem a (ih p h c hc)
    · cases hrec : pySplit sep rest with
      | nil => exact absurd hrec (pySplit_ne_nil sep rest)
      | cons p0 ps =>
        have heq : pySplit sep (a :: rest) = (a :: p0) :: ps := by
          simp only [pySplit, hrec, if_neg ha]
        rw [heq] at hp
        rcases List.mem_cons.mp hp with h | h
        · subst h
          rcases List.mem_cons.mp hc with h2 | h2
          · rw [h2]; exact List.mem_cons_self a rest
          · exact List.mem_cons_of_mem a
              (ih p0 (by rw [hrec]; exact List.mem_cons_self p0 ps) c h2)
        · exact List.mem_cons_of_mem a
            (ih p (by rw [hrec]; exact List.mem_cons_of_mem p0 h) c hc)

theorem mem_of_mem_pyJoin (sep : Char) :
    ∀ (xs : List PyStr) (c : Char), c ∈ pyJoin sep xs →
      c = sep ∨ ∃ x ∈ xs, c ∈ x := by
  intro xs
  induction xs with
  | nil => intro c hc; simp [pyJoin] at hc
  | cons x xs' ih =>
    intro c hc
    cases xs' with
    | nil => exact Or.inr ⟨x, by simp, hc⟩
    | cons y ys =>
      rw [show pyJoin sep (x :: y :: ys) = x ++ sep :: pyJoin sep (y :: ys)
        from rfl] at hc
      rcases List.mem_append.mp hc with hm | hm
      · exact Or.inr ⟨x, by simp, hm⟩
      · rcases List.mem_cons.mp hm with hm2 | hm2
        · exact Or.inl hm2
        · rcases ih c hm2 with h | ⟨z, hz, hcz⟩
          · exact Or.inl h
          · exact Or.inr ⟨z, List.mem_cons_of_mem _ hz, hcz⟩

theorem isHeaderLine_ws_false {l : PyStr} (h : ∀ c ∈ l, cWS c = true) :
    isHeaderLine l = false := by
  cases hA : (l.take 2 == ['#', '#']) with
  | false => simp [isHeaderLine, hA]
  | true =>
    exfalso
    have hteq : l.take 2 = ['#', '#'] := by simpa using hA
    have hmem : ('#' : Char) ∈ l :=
      List.take_subset 2 l (by rw [hteq]; simp)
    exact absurd (h _ hmem) (by decide)

theorem gatherSections_ws :
    ∀ (lines : List PyStr), (∀ l ∈ lines, ∀ c ∈ l, cWS c = true) →
    ∀ (body : List PyStr), (∀ l ∈ body, ∀ c ∈ l, cWS c = true) →
      gatherSections lines [] body = [] := by
  intro lines
  induction lines with
  | nil =>
    intro _ body hb
    show closeSection [] body = []
    unfold closeSection
    dsimp only
    have hws : ∀ c ∈ joinNl body, cWS c = true := by
      intro c hcj
      rcases mem_of_mem_pyJoin '\n' body c hcj with h | ⟨x, hx, hcx⟩
      · subst h; decide
      · exact hb x hx c hcx
    rw [if_pos ⟨by decide, List.isEmpty_iff.mpr (pyStrip_eq_nil_iff.mpr hws)⟩]
  | cons l rest ih =>
    intro h body hb
    show gatherSections (l :: rest) [] body = []
    rw [show gatherSections (l :: rest) [] body =
        if isHeaderLine l then
          closeSection [] body ++ gatherSections rest (headerOf l) []
        else gatherSections rest [] (body ++ [l]) from rfl]
    rw [if_neg (by
      rw [isHeaderLine_ws_false (h l (List.mem_cons_self l rest))]
      simp)]
    apply ih (fun x hx => h x (List.mem_cons_of_mem l hx))
    intro x hx c hcx
    rcases List.mem_append.mp hx with hm | hm
    · exact hb x hm c hcx
    · rw [List.mem_singleton] at hm
      subst hm
      exact h x (List.mem_cons_self x rest) c hcx

theorem split_into_sections_of_strip_nil {content : PyStr}
    (h : pyStrip content = []) : split_into_sections content = [] := by
  unfold split_into_sections
  apply gatherSections_ws
  · intro l hl c hcl
    exact pyStrip_eq_nil_iff.mp h c (mem_of_mem_pySplit '\n' content l hl c hcl)
  · intro l hl
    simp at hl

/-- C3 (amended): for any page whose non-excluded content fits within
`MAX_CHUNK_TOKENS`, the newline-join of the emitted chunks' original
(pre-prefix) contents, followed by one possibly-dropped remainder whose
token estimate is below `MIN_CHUNK_TOKENS`, reproduces exactly the
newline-join of the page's non-excluded section texts, in order.  (On
oversized pages the source additionally drops under-minimum buffers and
sub-chunks and duplicates overlap, see C4's counterexample machinery.) -/
theorem claim_C3_amended (page_id : Nat) (title content ptype : PyStr)
    (cats : List PyStr)
    (hmax : estimate_tokens (joinNl (nonExcludedTexts title
        (split_into_sections content))) ≤ MAX_CHUNK_TOKENS) :
    ∃ dropped : PyStr,
      (dropped = [] ∨ estimate_tokens dropped < MIN_CHUNK_TOKENS) ∧
      joinTwo (joinNl ((chunk_page_core page_id title content ptype cats).map
          (fun c => c.content))) dropped =
        joinNl (nonExcludedTexts title (split_into_sections content)) := by
  by_cases hc : (pyStrip content).isEmpty
  · refine ⟨[], Or.inl rfl, ?_⟩
    rw [split_into_sections_of_strip_nil (List.isEmpty_iff.mp hc)]
    unfold chunk_page_core
    rw [if_pos hc]
    rfl
  · have hinit : CovInv (⟨[], 0, title, []⟩ : ChunkState) :=
      ⟨fun hb => absurd rfl hb, fun hb => absurd rfl hb,
        fun c hcm => by simp at hcm⟩
    have hbound : estimate_tokens
        (joinTwo (⟨[], 0, title, []⟩ : ChunkState).buffer_content
          (joinNl (nonExcludedTexts title (split_into_sections content)))) ≤
        MAX_CHUNK_TOKENS := by
      rw [show (⟨[], 0, title, []⟩ : ChunkState).buffer_content = [] from rfl,
        joinTwo_nil_left]
      exact hmax
    obtain ⟨_, hcov⟩ := covFold page_id title ptype cats
      (split_into_sections content) ⟨[], 0, title, []⟩ hinit hbound
    refine ⟨(chunkFold page_id title ptype cats
      (split_into_sections content)).buffer_content, ?_, ?_⟩
    · by_cases hbuf : (chunkFold page_id title ptype cats
          (split_into_sections content)).buffer_content = []
      · exact Or.inl hbuf
      · exact Or.inr (chunkFold_BufSmall page_id title ptype cats
          (split_into_sections content) hbuf)
    · unfold chunk_page_core
      rw [if_neg hc]
      rw [finalFlush_of_BufSmall page_id title ptype cats _
        (chunkFold_BufSmall page_id title ptype cats (split_into_sections content))]
      show covContent (chunkFold page_id title ptype cats
        (split_into_sections content)) = _
      unfold chunkFold
      rw [hcov]
      rw [show covContent (⟨[], 0, title, []⟩ : ChunkState) = [] from rfl,
        joinTwo_nil_left]

/-- C3 (counterexample): the page "tiny page" has non-empty non-excluded
content, yet `chunk_page` emits no chunks at all, so no concatenation of
emitted chunks can reproduce that content even up to overlap. -/
theorem claim_C3_counterexample :
    (chunk_page_core 2 ['T'] "tiny page".data "guide".data []).map
        (fun c => c.content) = [] ∧
      nonExcludedTexts ['T'] (split_into_sections "tiny page".data) =
        ["tiny page".data] := by
  constructor
  · decide
  · decide

set_option maxRecDepth 40000 in
/-- Witness for C3 (amended) at the concrete page `w4page`. -/
theorem claim_C3_witness :
    ∃ dropped : PyStr,
      (dropped = [] ∨ estimate_tokens dropped < MIN_CHUNK_TOKENS) ∧
      joinTwo (joinNl ((chunk_page_core 3 ['W'] w4page "item".data []).map
          (fun c => c.content))) dropped =
        joinNl (nonExcludedTexts ['W'] (split_into_sections w4page)) :=
  claim_C3_amended 3 ['W'] w4page "item".data [] (by decide)

/-! ## Claims C1 and C5–C9: the search pipeline -/

theorem mem_dictValues_dictInsert {d : ResultDict} {k : Nat} {v : SearchResult}
    {r : SearchResult} (hr : r ∈ dictValues (dictInsert d k v)) :
    r ∈ dictValues d ∨ r = v := by
  unfold dictInsert at hr
  split_ifs at hr with hm
  · unfold dictValues at hr ⊢
    rw [List.map_map] at hr
    rw [List.mem_map] at hr
    obtain ⟨p, hp, hpr⟩ := hr
    dsimp only [Function.comp] at hpr
    by_cases hb : (p.1 == k) = true
    · rw [if_pos hb] at hpr
      exact Or.inr hpr.symm
    · rw [if_neg hb] at hpr
      exact Or.inl (hpr ▸ List.mem_map_of_mem Prod.snd hp)
  · unfold dictValues at hr ⊢
    rw [List.map_append] at hr
    rcases List.mem_append.mp hr with h | h
    · exact Or.inl h
    · simp at h
      exact Or.inr h

theorem dictValues_pred_dictInsert {d : ResultDict} {k : Nat} {v : SearchResult}
    {Q : SearchResult → Prop} (hd : ∀ r ∈ dictValues d, Q r) (hv : Q v) :
    ∀ r ∈ dictValues (dictInsert d k v), Q r := by
  intro r hr
  rcases mem_dictValues_dictInsert hr with h | h
  · exact hd r h
  · exact h ▸ hv

theorem dictMem_iff {d : ResultDict} {k : Nat} :
    dictMem d k = true ↔ k ∈ d.map Prod.fst := by
  unfold dictMem
  rw [List.any_eq_true]
  constructor
  · rintro ⟨p, hp, hb⟩
    rw [beq_iff_eq] at hb
    exact hb ▸ List.mem_map_of_mem Prod.fst hp
  · intro hk
    rw [List.mem_map] at hk
    obtain ⟨p, hp, hpk⟩ := hk
    exact ⟨p, hp, by rw [beq_iff_eq]; exact hpk⟩

theorem GoodDict_dictInsert {d : ResultDict} {k : Nat} {v : SearchResult}
    (hd : GoodDict d) (hv : v.chunk_id = k) : GoodDict (dictInsert d k v) := by
  obtain ⟨hnd, hids⟩ := hd
  unfold dictInsert
  split_ifs with hm
  · constructor
    · rw [List.map_map]
      have : ∀ p ∈ d, (Prod.fst ∘ fun p => if p.1 == k then (k, v) else p) p = p.1 := by
        intro p _
        dsimp only [Function.comp]
        by_cases hb : (p.1 == k) = true
        · rw [if_pos hb]
          exact (beq_iff_eq.mp hb).symm
        · rw [if_neg hb]
      rw [List.map_congr_left this]
      exact hnd
    · intro p hp
      rw [List.mem_map] at hp
      obtain ⟨q, hq, hqp⟩ := hp
      by_cases hb : (q.1 == k) = true
      · rw [if_pos hb] at hqp
        rw [← hqp]
        exact hv
      · rw [if_neg hb] at hqp
        exact hqp ▸ hids q hq
  · constructor
    · rw [List.map_append]
      rw [List.nodup_append]
      refine ⟨hnd, by simp, ?_⟩
      intro x hx
      simp only [List.map_cons, List.map_nil, List.mem_singleton]
      intro he
      subst he
      exact hm (dictMem_iff.mpr hx)
    · intro p hp
      rcases List.mem_append.mp hp with h | h
      · exact hids p h
      · rw [List.mem_singleton] at h
        subst h
        exact hv

theorem GoodDict_nil : GoodDict [] := ⟨List.nodup_nil, fun p hp => by simp at hp⟩

theorem values_chunkIds {d : ResultDict} (h : ∀ p ∈ d, p.2.chunk_id = p.1) :
    (dictValues d).map (fun r => r.chunk_id) = d.map Prod.fst := by
  unfold dictValues
  rw [List.map_map]
  exact List.map_congr_left h

/-! Generic fold lemmas over the dict -/

theorem foldl_values_pred {α : Type} (Q : SearchResult → Prop)
    (f : ResultDict → α → ResultDict) :
    ∀ (l : List α) (d : ResultDict),
      (∀ d' a, a ∈ l → (∀ r ∈ dictValues d', Q r) →
        ∀ r ∈ dictValues (f d' a), Q r) →
      (∀ r ∈ dictValues d, Q r) →
      ∀ r ∈ dictValues (List.foldl f d l), Q r := by
  intro l
  induction l with
  | nil => intro d _ hd; exact hd
  | cons a l' ih =>
    intro d hf hd
    rw [List.foldl_cons]
    exact ih _ (fun d' a' ha' => hf d' a' (List.mem_cons_of_mem _ ha'))
      (hf d a (List.mem_cons_self _ _) hd)

theorem foldl_GoodDict {α : Type} (f : ResultDict → α → ResultDict)
    (hf : ∀ d a, GoodDict d → GoodDict (f d a)) :
    ∀ (l : List α) (d : ResultDict), GoodDict d → GoodDict (List.foldl f d l) := by
  intro l
  induction l with
  | nil => intro d hd; exact hd
  | cons a l' ih =>
    intro d hd
    rw [List.foldl_cons]
    exact ih _ (hf d a hd)

/-! Dict well-formedness and similarity bounds through the passes -/

theorem pass2Merge_GoodDict (rows : List Row) (sh kw : List PyStr) :
    GoodDict (pass2Merge rows sh kw) := by
  unfold pass2Merge
  apply foldl_GoodDict
  · intro d row hd
    dsimp only
    split_ifs
    · exact hd
    · exact GoodDict_dictInsert hd rfl
  · exact GoodDict_nil

theorem pass1Fill_GoodDict (d : ResultDict) (rows : List Row)
    (hd : GoodDict d) : GoodDict (pass1Fill d rows) := by
  unfold pass1Fill
  apply foldl_GoodDict
  · intro d' row hd'
    dsimp only
    split_ifs
    · exact hd'
    · exact GoodDict_dictInsert hd' rfl
  · exact hd

theorem xrefMergeRows_GoodDict (kw : List PyStr) (d : ResultDict)
    (rows : List Row) (hd : GoodDict d) : GoodDict (xrefMergeRows kw d rows) := by
  unfold xrefMergeRows
  apply foldl_GoodDict
  · intro d' row hd'
    dsimp only
    split_ifs
    · exact hd'
    · exact GoodDict_dictInsert hd' rfl
  · exact hd

theorem xrefLoop_GoodDict (store : Store) (emb : Embedding) (pt gm : Option PyStr)
    (top_k : Nat) (kw : List PyStr) :
    ∀ (refs : List PyStr) (d d' : ResultDict), GoodDict d →
      xrefLoop store emb pt gm top_k kw refs d = .ok d' → GoodDict d' := by
  intro refs
  induction refs with
  | nil =>
    intro d d' hd h
    unfold xrefLoop at h
    rw [Except.ok.injEq] at h
    exact h ▸ hd
  | cons t rest ih =>
    intro d d' hd h
    unfold xrefLoop at h
    cases hf : store.xrefFetch emb t pt gm top_k with
    | error e =>
      rw [hf] at h
      exact Except.noConfusion h
    | ok rows =>
      rw [hf] at h
      exact ih _ d' (xrefMergeRows_GoodDict kw d rows hd) h

theorem pass2Merge_ValuesLe1 (rows : List Row) (sh kw : List PyStr) :
    ValuesLe1 (pass2Merge rows sh kw) := by
  unfold pass2Merge ValuesLe1
  apply foldl_values_pred (fun r => r.similarity ≤ 1)
  · intro d row _ hd
    dsimp only
    split_ifs
    · exact hd
    · exact dictValues_pred_dictInsert hd (min_le_right _ _)
  · intro r hr
    simp [dictValues] at hr

theorem pass1Fill_ValuesLe1 (d : ResultDict) (rows : List Row)
    (hd : ValuesLe1 d) (hrows : ∀ row ∈ rows, row.similarity ≤ 1) :
    ValuesLe1 (pass1Fill d rows) := by
  unfold pass1Fill ValuesLe1
  apply foldl_values_pred (fun r => r.similarity ≤ 1)
  · intro d' row hrow hd'
    dsimp only
    split_ifs
    · exact hd'
    · exact dictValues_pred_dictInsert hd' (hrows row hrow)
  · exact hd

theorem xrefMergeRows_ValuesLe1 (kw : List PyStr) (d : ResultDict)
    (rows : List Row) (hd : ValuesLe1 d) : ValuesLe1 (xrefMergeRows kw d rows) := by
  unfold xrefMergeRows ValuesLe1
  apply foldl_values_pred (fun r => r.similarity ≤ 1)
  · intro d' row _ hd'
    dsimp only
    split_ifs
    · exact hd'
    · exact dictValues_pred_dictInsert hd' (min_le_right _ _)
  · exact hd

theorem xrefLoop_ValuesLe1 (store : Store) (emb : Embedding) (pt gm : Option PyStr)
    (top_k : Nat) (kw : List PyStr) :
    ∀ (refs : List PyStr) (d d' : ResultDict), ValuesLe1 d →
      xrefLoop store emb pt gm top_k kw refs d = .ok d' → ValuesLe1 d' := by
  intro refs
  induction refs with
  | nil =>
    intro d d' hd h
    unfold xrefLoop at h
    rw [Except.ok.injEq] at h
    exact h ▸ hd
  | cons t rest ih =>
    intro d d' hd h
    unfold xrefLoop at h
    cases hf : store.xrefFetch emb t pt gm top_k with
    | error e =>
      rw [hf] at h
      exact Except.noConfusion h
    | ok rows =>
      rw [hf] at h
      exact ih _ d' (xrefMergeRows_ValuesLe1 kw d rows hd) h

/-! The shape of a successful `searchBody` run -/

theorem searchBody_ok_shape (store : Store) (emb : Embedding) (query : PyStr)
    (top_k : Nat) (pt gm : Option PyStr) (res : List SearchResult)
    (h : searchBody store emb query top_k pt gm = .ok res) :
    ∃ d : ResultDict, GoodDict d ∧
      ((∀ rows, store.searchWiki emb top_k pt gm = .ok rows →
          ∀ row ∈ rows, row.similarity ≤ 1) → ValuesLe1 d) ∧
      res = (sortResults (dictValues d)).take top_k := by
  unfold searchBody at h
  cases hA : store.searchWiki emb top_k pt gm with
  | error e =>
    rw [hA] at h
    exact Except.noConfusion h
  | ok vrows =>
    rw [hA] at h
    cases hB : store.titleMatch emb query pt gm (top_k * 3) with
    | error e =>
      rw [hB] at h
      exact Except.noConfusion h
    | ok trows =>
      rw [hB] at h
      simp only [bind, Except.bind, pure, Except.pure] at h
      have hseen2 : GoodDict (pass1Fill
          (pass2Merge trows
            ((trows.map (fun r => pyLower r.page_title)).filter
              (isShadowed (trows.map (fun r => pyLower r.page_title))))
            (extract_section_keywords query)) vrows) :=
        pass1Fill_GoodDict _ _ (pass2Merge_GoodDict _ _ _)
      by_cases htc : (joinSpace (((sortResults (dictValues (pass1Fill
          (pass2Merge trows
            ((trows.map (fun r => pyLower r.page_title)).filter
              (isShadowed (trows.map (fun r => pyLower r.page_title))))
            (extract_section_keywords query)) vrows))).take 3).map
          (fun r => r.content))).isEmpty
      · rw [if_pos htc] at h
        rw [Except.ok.injEq] at h
        refine ⟨_, hseen2, ?_, h.symm⟩
        intro hyp
        exact pass1Fill_ValuesLe1 _ _ (pass2Merge_ValuesLe1 _ _ _) (hyp vrows rfl)
      · rw [if_neg htc] at h
        cases hC : store.titleRows with
        | error e =>
          rw [hC] at h
          exact Except.noConfusion h
        | ok idxRows =>
          rw [hC] at h
          simp only [bind, Except.bind, pure, Except.pure] at h
          cases hD : xrefLoop store emb pt gm top_k (extract_section_keywords query)
              (find_references (get_title_index idxRows)
                (joinSpace (((sortResults (dictValues (pass1Fill
                  (pass2Merge trows
                    ((trows.map (fun r => pyLower r.page_title)).filter
                      (isShadowed (trows.map (fun r => pyLower r.page_title))))
                    (extract_section_keywords query)) vrows))).take 3).map
                  (fun r => r.content)))
                query
                ((trows.map (fun r => pyLower r.page_title)) ++
                  (trows.map (fun r => pyLower r.page_title)).filter
                    (isShadowed (trows.map (fun r => pyLower r.page_title)))))
              (pass1Fill
                (pass2Merge trows
                  ((trows.map (fun r => pyLower r.page_title)).filter
                    (isShadowed (trows.map (fun r => pyLower r.page_title))))
                  (extract_section_keywords query)) vrows) with
          | error e =>
            rw [hD] at h
            exact Except.noConfusion h
          | ok d3 =>
            rw [hD] at h
            simp only [bind, Except.bind, pure, Except.pure, Except.ok.injEq] at h
            refine ⟨d3, xrefLoop_GoodDict store emb pt gm top_k _ _ _ _ hseen2 hD,
              ?_, h.symm⟩
            intro hyp
            exact xrefLoop_ValuesLe1 store emb pt gm top_k _ _ _ _
              (pass1Fill_ValuesLe1 _ _ (pass2Merge_ValuesLe1 _ _ _) (hyp vrows rfl)) hD

/-! Claims C5 and C9 -/

/-- C5: when the embedding step fails (`embed_query` raised), `search`
returns `[]` and propagates nothing — the outer `except` swallows the
failure before any store call is made. -/
theorem claim_C5 (store : Store) (query : PyStr) (top_k : Nat)
    (pt gm : Option PyStr) (e : Unit) :
    search store (.error e) query top_k pt gm = [] := rfl

/-- C9: for every store, embedding outcome, query and `top_k`, the list
`search` returns has length at most `top_k`, pairwise distinct
`chunk_id`s, and is sorted by similarity in descending order. -/
theorem claim_C9 (store : Store) (embedResult : Except Unit Embedding)
    (query : PyStr) (top_k : Nat) (pt gm : Option PyStr) :
    (search store embedResult query top_k pt gm).length ≤ top_k ∧
    ((search store embedResult query top_k pt gm).map
      (fun r => r.chunk_id)).Nodup ∧
    (search store embedResult query top_k pt gm).Sorted SimDesc := by
  cases embedResult with
  | error e =>
    simp only [search]
    exact ⟨Nat.zero_le _, List.nodup_nil, List.sorted_nil⟩
  | ok emb =>
    cases hS : searchBody store emb query top_k pt gm with
    | error e =>
      simp only [search, hS]
      exact ⟨Nat.zero_le _, List.nodup_nil, List.sorted_nil⟩
    | ok res =>
      simp only [search, hS]
      obtain ⟨d, hgood, _, hres⟩ := searchBody_ok_shape store emb query top_k pt gm res hS
      subst hres
      refine ⟨List.length_take_le _ _, ?_, ?_⟩
      · rw [List.map_take]
        apply List.Nodup.sublist (List.take_sublist _ _)
        apply (((List.perm_insertionSort SimDesc (dictValues d)).map _).nodup_iff).mpr
        rw [values_chunkIds hgood.2]
        exact hgood.1
      · exact List.Pairwise.sublist (List.take_sublist _ _)
          (List.sorted_insertionSort SimDesc (dictValues d))

/-! Claim C1 -/

/-- C1 is false as stated: on `store1`, Pass 1 succeeds with one row and
Pass 2 succeeds, the merged Pass-1/2 dict is non-empty, and the single
Pass-3 cross-reference fetch fails — yet `search` returns `[]`.  The one
`try/except` spans all three passes, so a Pass-3 store failure discards
the Pass-1/2 results instead of skipping only the expansion. -/
theorem claim_C1_counterexample :
    store1.searchWiki [] 5 none none = .ok [row1] ∧
    store1.titleMatch [] "q".data none none (5 * 3) = .ok [] ∧
    dictValues (pass1Fill (pass2Merge [] [] (extract_section_keywords "q".data))
      [row1]) ≠ [] ∧
    store1.xrefFetch [] "Swordfish".data none none 5 = .error () ∧
    search store1 (.ok []) "q".data 5 none none = [] := by
  refine ⟨rfl, rfl, by decide, rfl, by decide⟩

/-- C1 (amended): a store failure anywhere inside the `try` body —
including a Pass-3 cross-reference fetch performed after Passes 1 and 2
have already computed merged results — makes `search` return `[]`: the
already-computed results are discarded, not returned. -/
theorem claim_C1_amended (store : Store) (emb : Embedding) (query : PyStr)
    (top_k : Nat) (pt gm : Option PyStr) (e : Unit)
    (h : searchBody store emb query top_k pt gm = .error e) :
    search store (.ok emb) query top_k pt gm = [] := by
  simp only [search, h]

/-- C1 (amended) witnessed on `store1`, whose only failing store call is
the Pass-3 fetch. -/
theorem claim_C1_witness :
    searchBody store1 [] "q".data 5 none none = .error () ∧
    search store1 (.ok []) "q".data 5 none none = [] :=
  ⟨by rfl, claim_C1_amended store1 [] "q".data 5 none none () (by rfl)⟩

/-! Claim C7 -/

theorem findRefsLoop_inv (content_lower query_lower : PyStr)
    (exclude : List PyStr) :
    ∀ (index : List (PyStr × PyStr)) (found found_lower : List PyStr),
      (∀ p ∈ index, p.1 = pyLower p.2) →
      found_lower = found.map pyLower →
      found_lower.Nodup →
      (∀ t ∈ found, ¬ pyLower t <:+: query_lower) →
      found.length ≤ 2 →
      (findRefsLoop content_lower query_lower exclude index found
          found_lower).length ≤ 3 ∧
        ((findRefsLoop content_lower query_lower exclude index found
          found_lower).map pyLower).Nodup ∧
        (∀ t ∈ findRefsLoop content_lower query_lower exclude index found
          found_lower, ¬ pyLower t <:+: query_lower) := by
  intro index
  induction index with
  | nil =>
    intro found found_lower _ hmap hnd hq hlen
    simp only [findRefsLoop]
    exact ⟨le_trans hlen (by omega), hmap ▸ hnd, hq⟩
  | cons p rest ih =>
    intro found found_lower hidx hmap hnd hq hlen
    obtain ⟨title_lower, title_original⟩ := p
    have hp1 : title_lower = pyLower title_original :=
      hidx _ (List.mem_cons_self _ _)
    have hrest : ∀ q ∈ rest, q.1 = pyLower q.2 :=
      fun q hq => hidx q (List.mem_cons_of_mem _ hq)
    simp only [findRefsLoop]
    split_ifs with h1 h2 h3 h4
    · exact ih found found_lower hrest hmap hnd hq hlen
    · exact ih found found_lower hrest hmap hnd hq hlen
    · -- appended and the cap is reached: return found ++ [title_original]
      refine ⟨by simpa using hlen, ?_, ?_⟩
      · rw [List.map_append]
        rw [List.map_singleton]
        rw [← hp1, ← hmap]
        rw [List.nodup_append]
        refine ⟨hnd, List.nodup_singleton _, ?_⟩
        intro x hx
        rw [List.mem_singleton]
        intro he
        subst he
        exact h1 (Or.inr hx)
      · intro t ht
        rcases List.mem_append.mp ht with h | h
        · exact hq t h
        · rw [List.mem_singleton] at h
          subst h
          rw [← hp1]
          exact h2
    · -- appended, cap not reached: recurse
      refine ih (found ++ [title_original]) (found_lower ++ [title_lower])
        hrest ?_ ?_ ?_ ?_
      · rw [List.map_append, List.map_singleton, ← hp1, hmap]
      · rw [List.nodup_append]
        refine ⟨hnd, List.nodup_singleton _, ?_⟩
        intro x hx
        rw [List.mem_singleton]
        intro he
        subst he
        exact h1 (Or.inr hx)
      · intro t ht
        rcases List.mem_append.mp ht with h | h
        · exact hq t h
        · rw [List.mem_singleton] at h
          subst h
          rw [← hp1]
          exact h2
      · rw [List.length_append] at h4 ⊢
        simp only [List.length_singleton] at h4 ⊢
        omega
    · exact ih found found_lower hrest hmap hnd hq hlen

theorem get_title_index_pairs (titleRows : List PyStr) :
    ∀ p ∈ get_title_index titleRows, p.1 = pyLower p.2 := by
  intro p hp
  unfold get_title_index at hp
  rw [(List.perm_insertionSort LenDesc _).mem_iff] at hp
  rw [List.mem_map] at hp
  obtain ⟨t, _, ht⟩ := hp
  rw [← ht]

/-- C7: over the index built by `_get_title_index`, `_find_references`
returns at most 3 distinct titles, never returns a title that occurs
case-insensitively inside the query text, and the index is sorted by
descending lowered-title length. -/
theorem claim_C7 (titleRows : List PyStr) (content query : PyStr)
    (exclude : List PyStr) :
    (find_references (get_title_index titleRows) content query
        exclude).length ≤ 3 ∧
      (find_references (get_title_index titleRows) content query
        exclude).Nodup ∧
      (∀ t ∈ find_references (get_title_index titleRows) content query exclude,
        ¬ pyLower t <:+: pyLower query) ∧
      (get_title_index titleRows).Sorted LenDesc := by
  unfold find_references
  obtain ⟨hlen, hnd, hq⟩ := findRefsLoop_inv (pyLower content) (pyLower query)
    exclude (get_title_index titleRows) [] [] (get_title_index_pairs titleRows)
    rfl List.nodup_nil (fun t ht => absurd ht (List.not_mem_nil t))
    (by simp)
  exact ⟨hlen, hnd.of_map pyLower, hq,
    List.sorted_insertionSort LenDesc _⟩

/-! Claim C6 -/

theorem dictInsert_keys (d : ResultDict) (k : Nat) (v : SearchResult) :
    (dictInsert d k v).map Prod.fst =
      if dictMem d k then d.map Prod.fst else d.map Prod.fst ++ [k] := by
  unfold dictInsert
  split_ifs with hm
  · rw [List.map_map]
    apply List.map_congr_left
    intro p _
    dsimp only [Function.comp]
    by_cases hb : (p.1 == k) = true
    · rw [if_pos hb]
      exact (beq_iff_eq.mp hb).symm
    · rw [if_neg hb]
  · rw [List.map_append]
    rfl

theorem dictMem_dictInsert (d : ResultDict) (k' : Nat) (v : SearchResult)
    (k : Nat) (h : dictMem d k = true) :
    dictMem (dictInsert d k' v) k = true := by
  rw [dictMem_iff] at h ⊢
  rw [dictInsert_keys]
  split_ifs
  · exact h
  · exact List.mem_append_left _ h

theorem dictMem_dictInsert_self (d : ResultDict) (k : Nat) (v : SearchResult) :
    dictMem (dictInsert d k v) k = true := by
  rw [dictMem_iff]
  rw [dictInsert_keys]
  split_ifs with hm
  · exact dictMem_iff.mp hm
  · exact List.mem_append_right _ (List.mem_singleton_self _)

theorem pass2Fold_mem_mono (sh kw : List PyStr) :
    ∀ (rows : List Row) (d : ResultDict) (k : Nat), dictMem d k = true →
      dictMem (rows.foldl
        (fun d row =>
          if pyLower row.page_title ∈ sh then d
          else dictInsert d row.chunk_id
            (mkSearchResult row (min (row.similarity + pass2Boost kw row) 1)))
        d) k = true := by
  intro rows
  induction rows with
  | nil => intro d k h; exact h
  | cons row rest ih =>
    intro d k h
    rw [List.foldl_cons]
    apply ih
    dsimp only
    split_ifs
    · exact h
    · exact dictMem_dictInsert d row.chunk_id _ k h

theorem pass2Fold_mem (sh kw : List PyStr) :
    ∀ (rows : List Row) (d : ResultDict) (row : Row), row ∈ rows →
      pyLower row.page_title ∉ sh →
      dictMem (rows.foldl
        (fun d row =>
          if pyLower row.page_title ∈ sh then d
          else dictInsert d row.chunk_id
            (mkSearchResult row (min (row.similarity + pass2Boost kw row) 1)))
        d) row.chunk_id = true := by
  intro rows
  induction rows with
  | nil => intro d row h; exact absurd h (List.not_mem_nil row)
  | cons hd rest ih =>
    intro d row hmem hnsh
    rw [List.foldl_cons]
    rcases List.mem_cons.mp hmem with he | hr
    · subst he
      apply pass2Fold_mem_mono
      dsimp only
      rw [if_neg hnsh]
      exact dictMem_dictInsert_self _ _ _
    · exact ih _ row hr hnsh

/-- C6 (amended): Pass 2 retains exactly the chunks of un-shadowed
matched titles — every merged value has an un-shadowed lowered title, and
every row whose lowered title is un-shadowed has its chunk id in the
dict.  A shadowed title is discarded even when it is at the same time the
longer member of some containment pair. -/
theorem claim_C6_amended (rows : List Row) (kw : List PyStr) :
    (∀ r ∈ dictValues (pass2Merge rows
        ((rows.map (fun r => pyLower r.page_title)).filter
          (isShadowed (rows.map (fun r => pyLower r.page_title)))) kw),
      isShadowed (rows.map (fun r => pyLower r.page_title)) (pyLower r.title)
        = false) ∧
    (∀ row ∈ rows,
      isShadowed (rows.map (fun r => pyLower r.page_title))
        (pyLower row.page_title) = false →
      dictMem (pass2Merge rows
        ((rows.map (fun r => pyLower r.page_title)).filter
          (isShadowed (rows.map (fun r => pyLower r.page_title)))) kw)
        row.chunk_id = true) := by
  constructor
  · unfold pass2Merge
    apply foldl_values_pred
    · intro d' row hrow hd
      dsimp only
      split_ifs with hsh
      · exact hd
      · apply dictValues_pred_dictInsert hd
        show isShadowed _ (pyLower (mkSearchResult row _).title) = false
        have ht : (mkSearchResult row
            (min (row.similarity + pass2Boost kw row) 1)).title =
            row.page_title := rfl
        rw [ht]
        cases hb : isShadowed (rows.map (fun r => pyLower r.page_title))
            (pyLower row.page_title) with
        | false => rfl
        | true =>
          exact absurd (List.mem_filter.mpr
            ⟨List.mem_map_of_mem (fun r => pyLower r.page_title) hrow, hb⟩)
            hsh
    · intro r hr
      exact absurd hr (List.not_mem_nil r)
  · intro row hrow hnsh
    unfold pass2Merge
    apply pass2Fold_mem
    · exact hrow
    · intro hmem
      rw [List.mem_filter] at hmem
      rw [hnsh] at hmem
      exact Bool.false_ne_true hmem.2

/-- C6 is false as stated: with matched titles "abcdef", "abcdefg" and
"abcdefgh", the pair ("abcdef", "abcdefg") has "abcdefg" as its strictly
longer title, yet no chunk titled "abcdefg" survives Pass 2 — that title
is itself shadowed by "abcdefgh" and is discarded too. -/
theorem claim_C6_counterexample :
    (pyLower rowA.page_title ≠ pyLower rowB.page_title ∧
     pyLower rowA.page_title <:+: pyLower rowB.page_title ∧
     (pyLower rowA.page_title).length < (pyLower rowB.page_title).length) ∧
    ∀ r ∈ dictValues (pass2Merge [rowA, rowB, rowC]
        (([rowA, rowB, rowC].map (fun r => pyLower r.page_title)).filter
          (isShadowed ([rowA, rowB, rowC].map (fun r => pyLower r.page_title))))
        []),
      r.title ≠ rowB.page_title := by decide

/-- C6 (amended) witnessed: the longest title of the chain is
un-shadowed and its row enters the merged dict. -/
theorem claim_C6_witness :
    isShadowed ([rowA, rowB, rowC].map (fun r => pyLower r.page_title))
      (pyLower rowC.page_title) = false ∧
    dictMem (pass2Merge [rowA, rowB, rowC]
      (([rowA, rowB, rowC].map (fun r => pyLower r.page_title)).filter
        (isShadowed ([rowA, rowB, rowC].map (fun r => pyLower r.page_title))))
      []) rowC.chunk_id = true :=
  ⟨by decide,
    (claim_C6_amended [rowA, rowB, rowC] []).2 rowC
      (List.mem_cons_of_mem _ (List.mem_cons_of_mem _ (List.mem_cons_self _ _)))
      (by decide)⟩

/-! Claim C8 -/

/-- C8: every Pass-2 merged value carries similarity
`min(base + boosts, 1)`; every value the Pass-3 merge adds carries
similarity `min(base + boosts, 1)`; whenever the store rows of Pass 1 are
bounded by 1, so is every similarity `search` returns; and base `0.95`
with a `0.30` title boost clamps to exactly `1`. -/
theorem claim_C8 (store : Store) (emb : Embedding) (query : PyStr)
    (top_k : Nat) (pt gm : Option PyStr) :
    (∀ (rows : List Row) (sh kw : List PyStr),
      ∀ r ∈ dictValues (pass2Merge rows sh kw),
        ∃ row ∈ rows,
          r = mkSearchResult row (min (row.similarity + pass2Boost kw row) 1)) ∧
    (∀ (kw : List PyStr) (d : ResultDict) (rows : List Row),
      ∀ r ∈ dictValues (xrefMergeRows kw d rows),
        r ∈ dictValues d ∨ ∃ row ∈ rows,
          r = mkSearchResult row (min (row.similarity + xrefBoost kw row) 1)) ∧
    ((∀ rows, store.searchWiki emb top_k pt gm = .ok rows →
        ∀ row ∈ rows, row.similarity ≤ 1) →
      ∀ r ∈ search store (.ok emb) query top_k pt gm, r.similarity ≤ 1) ∧
    min (rowW.similarity + pass2Boost [] rowW) 1 = 1 := by
  refine ⟨?_, ?_, ?_, ?_⟩
  · intro rows sh kw
    unfold pass2Merge
    apply foldl_values_pred
    · intro d' row hrow hd
      dsimp only
      split_ifs
      · exact hd
      · exact dictValues_pred_dictInsert hd ⟨row, hrow, rfl⟩
    · intro r hr
      exact absurd hr (List.not_mem_nil r)
  · intro kw d rows
    unfold xrefMergeRows
    apply foldl_values_pred
    · intro d' row hrow hd
      dsimp only
      split_ifs
      · exact hd
      · exact dictValues_pred_dictInsert hd (Or.inr ⟨row, hrow, rfl⟩)
    · intro r hr
      exact Or.inl hr
  · intro hyp r hr
    cases hS : searchBody store emb query top_k pt gm with
    | error e =>
      simp only [search, hS] at hr
      exact absurd hr (List.not_mem_nil r)
    | ok res =>
      simp only [search, hS] at hr
      obtain ⟨d, _, hle, hres⟩ :=
        searchBody_ok_shape store emb query top_k pt gm res hS
      subst hres
      exact hle hyp r
        ((List.perm_insertionSort SimDesc (dictValues d)).subset
          (List.mem_of_mem_take hr))
  · have h54 : rowW.similarity + pass2Boost [] rowW = 5/4 := by
      have hb : pass2Boost [] rowW = TITLE_BOOST + 0 := rfl
      rw [hb]
      norm_num [rowW, TITLE_BOOST]
    rw [h54]
    rw [min_eq_right (by norm_num : (1 : ℚ) ≤ 5/4)]

/-- C8 witnessed on `store1` (every returned similarity is at most 1)
and on `rowW` (base 0.95, clamped to exactly 1). -/
theorem claim_C8_witness :
    (∀ r ∈ search store1 (.ok []) "q".data 5 none none, r.similarity ≤ 1) ∧
    min (rowW.similarity + pass2Boost [] rowW) 1 = 1 :=
  ⟨(claim_C8 store1 [] "q".data 5 none none).2.2.1
    (by
      intro rows h row hrow
      rw [show store1.searchWiki [] 5 none none = Except.ok [row1] from rfl] at h
      injection h with h2
      rw [← h2] at hrow
      rw [List.mem_singleton] at hrow
      subst hrow
      have : row1.similarity = 1/2 := rfl
      rw [this]
      norm_num),
   (claim_C8 store1 [] "q".data 5 none none).2.2.2⟩
